import Mathlib

/-!
# Monitoring_ver6: checkpoint watchdog and restart supervisor

A shallow embedding of `src/Monitoring_ver6.c`.

* `process_info` / `cp_info` are the two C structs.  The `cp_array` pointers are
  allocated once, one fresh `cp_info` per entry, by `p_info_write`, so the
  pointed-to records are embedded by value.  The `FILE *fd` field only carries
  the stream handle between `fopen` and `fclose`; the outcome of these calls is
  an explicit input of the functions that make them.
* Reading or writing outside an array, `fclose(NULL)` and `exit` have no
  successor state: the embedded function returns `none`.
* `int` values are `Int`; the one arithmetic operation of the program,
  `timer_count--`, is taken modulo `2^32` (two's complement).
-/

namespace Monitoring

/-! ## Constants and data model -/

abbrev RTI_federate_nodes : Nat := 3
abbrev max_cp_num : Nat := 10
abbrev p_state_stop : Nat := 0
abbrev p_state_starting : Nat := 1
abbrev p_state_terminated : Nat := 2

/-- The struct `check_point_info`. -/
structure cp_info where
  check_do : Bool
  start_cp : Bool
  end_cp : Bool
  timer_count : Int
deriving DecidableEq, Repr

/-- The struct `process_info` (without the stream handle `fd`). -/
structure process_info where
  pid : Int
  p_state : Nat
  file_path : String
  command : String
  cp_num : List Char
  deadline : Fin 10 → Int
  cp_array : Fin max_cp_num → cp_info

/-- The array `p_info[RTI_federate_nodes]` of `main`. -/
abbrev p_info_array : Type := Fin RTI_federate_nodes → process_info

/-! ## C library functions used on the checkpoint token -/

/-- The value of an `int` after an arithmetic step, reduced to 32 bits. -/
def int_wrap (x : Int) : Int := (x + 2147483648) % 4294967296 - 2147483648

/-- C `isspace` in the "C" locale: space, `\t`, `\n`, `\v`, `\f`, `\r`. -/
def isspace (c : Char) : Bool :=
  c.toNat = 32 || (9 ≤ c.toNat && c.toNat ≤ 13)

/-- C `isdigit`. -/
def isdigit (c : Char) : Bool := 48 ≤ c.toNat && c.toNat ≤ 57

/-- The digit loop of `atoi`. -/
def atoi_digits (acc : Int) : List Char → Int
  | [] => acc
  | c :: cs => if isdigit c then atoi_digits (acc * 10 + ((c.toNat : Int) - 48)) cs else acc

/-- C `atoi`: leading white space, an optional sign, then decimal digits.
A value outside the range of `int` is returned as it is; the callers below
reject every value outside `[0, max_cp_num)`. -/
def atoi (s : List Char) : Int :=
  match s.dropWhile isspace with
  | [] => 0
  | c :: cs =>
    if c.toNat = 45 then - atoi_digits 0 cs
    else if c.toNat = 43 then atoi_digits 0 cs
    else atoi_digits 0 (c :: cs)

/-- The call `sscanf(line, "cp: %s", cp_num)`: the three characters `cp:` are
matched literally, the blank of the format skips any white space, and `%s`
stores the following run of non-blank characters.  `none` when nothing is
stored (the call returns `0` or `EOF`). -/
def sscanf_cp (line : List Char) : Option (List Char) :=
  match line with
  | c0 :: c1 :: c2 :: rest =>
    if c0 = 'c' ∧ c1 = 'p' ∧ c2 = ':' then
      let tok := (rest.dropWhile isspace).takeWhile (fun c => !isspace c)
      if tok.isEmpty then none else some tok
    else none
  | _ => none

/-! ## `time_count_update` -/

/-- The assignment `cp_array[j]->check_do = false`. -/
def clear_check_do (a : Fin max_cp_num → cp_info) (j : Fin max_cp_num) :
    Fin max_cp_num → cp_info :=
  Function.update a j { a j with check_do := false }

/-- The two assignments `cp_array[j]->timer_count = deadline[j]` and
`cp_array[j]->check_do = true`. -/
def arm_slot (a : Fin max_cp_num → cp_info) (deadline : Fin 10 → Int) (j : Fin max_cp_num) :
    Fin max_cp_num → cp_info :=
  Function.update a j { a j with timer_count := deadline j, check_do := true }

/-- The function `time_count_update`.  `cp_array[cp_num_value]` and
`cp_array[cp_num_value - 1]` are accessed without a bounds check in the source;
an index outside `[0, max_cp_num)` gives `none`. -/
def time_count_update (p : process_info) : Option process_info :=
  let cp_num_value := atoi p.cp_num
  if h : 0 ≤ cp_num_value ∧ cp_num_value < max_cp_num then
    let k : Fin max_cp_num := ⟨cp_num_value.toNat, by omega⟩
    if (p.cp_array k).end_cp = true then
      if h0 : 0 < k.val then
        some { p with cp_array := clear_check_do p.cp_array ⟨k.val - 1, by omega⟩ }
      else none
    else if (p.cp_array k).start_cp = true then
      some { p with cp_array := arm_slot p.cp_array p.deadline k }
    else
      if h0 : 0 < k.val then
        some { p with cp_array :=
          clear_check_do (arm_slot p.cp_array p.deadline k) ⟨k.val - 1, by omega⟩ }
      else none
  else none

/-! ## `count_down`: the watchdog -/

/-- The body of the inner loop of `count_down` at slot `j` of one peer.
`result` is what `system("sudo kill <pid>")` returns if the call is made here;
the second component collects the pids for which the call was made. -/
def count_down_slot (result : Int) (acc : process_info × List Int) (j : Fin max_cp_num) :
    process_info × List Int :=
  if (acc.1.cp_array j).check_do = true ∧ acc.1.p_state = p_state_starting then
    let c : cp_info :=
      { acc.1.cp_array j with timer_count := int_wrap ((acc.1.cp_array j).timer_count - 1) }
    let p1 : process_info := { acc.1 with cp_array := Function.update acc.1.cp_array j c }
    if c.timer_count = 0 then
      if result = -1 then (p1, acc.2 ++ [acc.1.pid])
      else ({ p1 with p_state := p_state_terminated }, acc.2 ++ [acc.1.pid])
    else (p1, acc.2)
  else acc

/-- The inner loop `for (j = 0; j < max_cp_num; j++)` of `count_down` on one peer. -/
def count_down_peer (result : Fin max_cp_num → Int) (p : process_info) :
    process_info × List Int :=
  (List.finRange max_cp_num).foldl (fun acc j => count_down_slot (result j) acc j) (p, [])

/-- The outer loop `for (i = 0; i < RTI_federate_nodes; i++)` of `count_down`:
one pass over all peers.  `result i j` is the return value of the kill command
if it is issued at peer `i`, slot `j`; the log lists `(i, pid)` for every kill
command issued, in order. -/
def count_down_pass (result : Fin RTI_federate_nodes → Fin max_cp_num → Int)
    (s : p_info_array) : p_info_array × List (Fin RTI_federate_nodes × Int) :=
  (List.finRange RTI_federate_nodes).foldl
    (fun acc i =>
      let r := count_down_peer (result i) (acc.1 i)
      (Function.update acc.1 i r.1, acc.2 ++ r.2.map (fun pid => (i, pid))))
    (s, [])

set_option linter.unusedVariables false in
/-- One iteration of the `while(1)` loop of `count_down`: the timer read stores
the number of expirations in `expirations`, then one pass is made. -/
def count_down (expirations : Nat) (result : Fin RTI_federate_nodes → Fin max_cp_num → Int)
    (s : p_info_array) : p_info_array × List (Fin RTI_federate_nodes × Int) :=
  count_down_pass result s

/-- The first `n` iterations of `count_down`, each timer read reporting one
expiration; `result t` gives the results of the kill commands of iteration `t`. -/
def count_down_ticks (result : Nat → Fin RTI_federate_nodes → Fin max_cp_num → Int) :
    Nat → p_info_array → p_info_array × List (Fin RTI_federate_nodes × Int)
  | 0, s => (s, [])
  | n + 1, s =>
    let r := count_down_ticks result n s
    let r1 := count_down 1 (result n) r.1
    (r1.1, r.2 ++ r1.2)

/-! ## `p_info_write`: the initial configuration -/

/-- The record written by the first loop of `p_info_write`. -/
def p_info_zero : process_info :=
  { pid := 0, p_state := p_state_stop, file_path := "", command := "", cp_num := [],
    deadline := fun _ => 0,
    cp_array := fun _ =>
      { check_do := false, start_cp := false, end_cp := false, timer_count := 0 } }

/-- The settings `cp_array[0]->start_cp = true`, `cp_array[3]->end_cp = true` of a federate. -/
def federate_cp_array : Fin max_cp_num → cp_info :=
  Function.update
    (Function.update p_info_zero.cp_array 0 { p_info_zero.cp_array 0 with start_cp := true })
    3 { p_info_zero.cp_array 3 with end_cp := true }

/-- The function `p_info_write`: every field of every peer is overwritten, so
the result does not depend on the array passed in. -/
def p_info_write : p_info_array := fun i =>
  match i with
  | 0 =>
    { p_info_zero with
      command := "taskset -c 0 RTI -n 2 -r 3000000000 & echo $! > /home/yoshinoriterazawa/LF/RTI.txt",
      file_path := "/home/yoshinoriterazawa/LF/RTI.txt" }
  | 1 =>
    { p_info_zero with
      command := "taskset -c 1 /home/yoshinoriterazawa/LF/fed-gen/filewrite/bin/federate__writer & echo $! > /home/yoshinoriterazawa/LF/federate_writer.txt",
      file_path := "/home/yoshinoriterazawa/LF/federate_writer.txt",
      cp_array := federate_cp_array,
      deadline := Function.update (Function.update (Function.update (fun _ => 0) 0 1010) 1 100) 2 1010 }
  | 2 =>
    { p_info_zero with
      command := "taskset -c 2 /home/yoshinoriterazawa/LF/fed-gen/filewrite/bin/federate__m_writer & echo $! > /home/yoshinoriterazawa/LF/federate_m_writer.txt",
      file_path := "/home/yoshinoriterazawa/LF/federate_m_writer.txt",
      cp_array := federate_cp_array,
      deadline := Function.update (Function.update (Function.update (fun _ => 0) 0 500) 1 100) 2 1010 }

/-! ## `executeProgram` and `restartProgram` -/

/-- What the environment answers when a peer is launched: the return value of
`system(command)`, whether `fopen(file_path, "r+")` gives a stream, and the
integer stored by `fscanf(fd, "%d", &pid)` (`none` when nothing is stored).
The outcome of `ftruncate` changes only the file. -/
structure launch_io where
  result : Int
  fopen_ok : Bool
  scanned : Option Int

/-- The statements shared by `executeProgram` and `restartProgram` after a
successful `system(command)`: the state is set to starting, then the pid is
read.  With `fd == NULL` the call `fclose(p_info[i].fd)` is still made. -/
def launch_success (io : launch_io) (p : process_info) : Option process_info :=
  let p1 : process_info := { p with p_state := p_state_starting }
  if io.fopen_ok = true then
    match io.scanned with
    | some v => some { p1 with pid := v }
    | none => some p1
  else none

/-- The loop body of `restartProgram` for peer `i`. -/
def restartProgram_peer (io : launch_io) (s : p_info_array) (i : Fin RTI_federate_nodes) :
    Option p_info_array :=
  if (s i).p_state = p_state_terminated then
    if io.result = -1 then some s
    else (launch_success io (s i)).map (fun p => Function.update s i p)
  else some s

/-- The function `restartProgram`: one pass over all peers. -/
def restartProgram (io : Fin RTI_federate_nodes → launch_io) (s : p_info_array) :
    Option p_info_array :=
  (List.finRange RTI_federate_nodes).foldlM (fun acc i => restartProgram_peer (io i) acc i) s

/-- The loop body of `executeProgram` for peer `i`; `watch` is the return value
of `inotify_add_watch`, and `-1` makes the program exit. -/
def executeProgram_peer (io : launch_io) (watch : Int)
    (acc : p_info_array × (Fin RTI_federate_nodes → Int)) (i : Fin RTI_federate_nodes) :
    Option (p_info_array × (Fin RTI_federate_nodes → Int)) :=
  if io.result = -1 then some acc
  else
    match launch_success io (acc.1 i) with
    | some p =>
      if watch = -1 then none
      else some (Function.update acc.1 i p, Function.update acc.2 i watch)
    | none => none

/-- The function `executeProgram`.  `inotify_fd` is the return value of
`inotify_init` (`-1` makes the program exit), `wd` the array of watch
descriptors of `main`. -/
def executeProgram (inotify_fd : Int) (io : Fin RTI_federate_nodes → launch_io)
    (watch : Fin RTI_federate_nodes → Int) (s : p_info_array)
    (wd : Fin RTI_federate_nodes → Int) :
    Option (p_info_array × (Fin RTI_federate_nodes → Int)) :=
  if inotify_fd = -1 then none
  else
    (List.finRange RTI_federate_nodes).foldlM
      (fun acc i => executeProgram_peer (io i) (watch i) acc i) (s, wd)

/-! ## `watch_cp_write`: ingest of the lines of a message file -/

/-- The body of the `fgets` loop of `watch_cp_write` for one line: `sscanf`
stores the token into `cp_num` when the line matches, and `time_count_update`
is called in either case. -/
def watch_cp_write_line (line : List Char) (p : process_info) : Option process_info :=
  match sscanf_cp line with
  | some tok => time_count_update { p with cp_num := tok }
  | none => time_count_update p

/-- The `fgets` loop of `watch_cp_write` over the lines of one message file. -/
def watch_cp_write_lines (lines : List (List Char)) (p : process_info) : Option process_info :=
  lines.foldlM (fun acc line => watch_cp_write_line line acc) p

/-- The line `cp: k` followed by a newline, for a one-digit index `k`. -/
def cp_line (k : Fin max_cp_num) : List Char :=
  ['c', 'p', ':', ' ', Char.ofNat (48 + k.val), Char.ofNat 10]

/-! ## `watch_cp_write`: the event loop of one wake-up -/

/-- The header of a `struct inotify_event`. -/
structure inotify_event where
  wd : Int
  mask : Nat
  cookie : Nat
  len : Nat

/-- The bit `IN_MODIFY` of `<sys/inotify.h>`. -/
abbrev IN_MODIFY : Nat := 2

/-- The macro `EVENT_SIZE`, the size of a `struct inotify_event` in bytes. -/
abbrev EVENT_SIZE : Nat := 16

/-- What the environment answers when the message file of a peer is opened for
an event: whether `fopen` gives a stream, and the lines that `fgets` returns.
`flock` is retried until it succeeds, and `ftruncate` changes only the file. -/
structure file_io where
  fopen_ok : Bool
  lines : List (List Char)

/-- The body of the loop `for (i = 0; i < RTI_federate_nodes; i++)` of
`watch_cp_write` for one event: when the event carries the watch descriptor of
peer `i`, the file is opened and its lines are ingested; a file that does not
open is skipped. -/
def watch_cp_write_peer (io : file_io) (event : inotify_event)
    (wd : Fin RTI_federate_nodes → Int) (s : p_info_array) (i : Fin RTI_federate_nodes) :
    Option p_info_array :=
  if event.wd = wd i then
    if io.fopen_ok = true then
      (watch_cp_write_lines io.lines (s i)).map (fun q => Function.update s i q)
    else some s
  else some s

/-- The body of the loop `while (event_point < length)` of `watch_cp_write`:
the event at offset `event_point` of the buffer is handled when its mask has
`IN_MODIFY`, and `event_point` is advanced inside that same `if`. -/
def watch_cp_write_event (io : Fin RTI_federate_nodes → file_io)
    (wd : Fin RTI_federate_nodes → Int) (buffer : Nat → inotify_event)
    (acc : p_info_array × Int) : Option (p_info_array × Int) :=
  if (buffer acc.2.toNat).mask &&& IN_MODIFY ≠ 0 then
    ((List.finRange RTI_federate_nodes).foldlM
      (fun s i => watch_cp_write_peer (io i) (buffer acc.2.toNat) wd s i) acc.1).map
      (fun s1 => (s1, acc.2 + ((EVENT_SIZE + (buffer acc.2.toNat).len : Nat) : Int)))
  else some acc

/-- The first `n` iterations of the loop `while (event_point < length)` (fewer
when the loop is left earlier), from the array and the `event_point` of `acc`;
`buffer` gives the event found at each byte offset, and `io idx` the answers of
the environment in the iteration numbered `idx`. -/
def watch_cp_write_iterate (io : Nat → Fin RTI_federate_nodes → file_io)
    (wd : Fin RTI_federate_nodes → Int) (buffer : Nat → inotify_event) (length : Int) :
    Nat → Nat → p_info_array × Int → Option (p_info_array × Int)
  | 0, _, acc => some acc
  | n + 1, idx, acc =>
    if acc.2 < length then
      (watch_cp_write_event (io idx) wd buffer acc).bind
        (watch_cp_write_iterate io wd buffer length n (idx + 1))
    else some acc

/-! ## Auxiliary definitions used in the statements and proofs -/

/-- The inner loop of `count_down` over an arbitrary list of slots. -/
def count_down_slots (result : Fin max_cp_num → Int) (js : List (Fin max_cp_num))
    (acc : process_info × List Int) : process_info × List Int :=
  js.foldl (fun acc j => count_down_slot (result j) acc j) acc

/-- The peer after the statement `cp_array[j]->timer_count--`. -/
def dec_slot (p : process_info) (j : Fin max_cp_num) : process_info :=
  { p with
    cp_array :=
      Function.update p.cp_array j
        { p.cp_array j with timer_count := int_wrap ((p.cp_array j).timer_count - 1) } }

/-- The `fgets` loop body of `watch_cp_write` for one line of the message file
of peer `i`, as a step on the whole array: only `p_info[i]` is touched. -/
def ingest (i : Fin RTI_federate_nodes) (line : List Char) (s : p_info_array) :
    Option p_info_array :=
  (watch_cp_write_line line (s i)).map (fun q => Function.update s i q)

/-- Kill commands that always succeed (`system` returns `0`). -/
def kill_ok : Nat → Fin RTI_federate_nodes → Fin max_cp_num → Int := fun _ _ _ => 0

/-! ## Concrete peers and arrays -/

/-- Federate 1 as configured, running with pid 4242, its stored token `1`,
slot 0 counting. -/
def peer_after_cp0 : process_info :=
  { p_info_write 1 with
    pid := 4242, p_state := p_state_starting, cp_num := ['1'],
    cp_array := arm_slot (p_info_write 1).cp_array (p_info_write 1).deadline 0 }

/-- Federate 1 as configured, running with pid 4242, its stored token `3` (the
index of its `end_cp` slot), slot 2 counting. -/
def peer_before_end : process_info :=
  { p_info_write 1 with
    pid := 4242, p_state := p_state_starting, cp_num := ['3'],
    cp_array := arm_slot (p_info_write 1).cp_array (p_info_write 1).deadline 2 }

/-- The peer of the scenarios: roles `[start, none, none, end]`, budgets
`[100, 100, 100, 0]`, running with pid 4242, no slot counting. -/
def scenario_peer : process_info :=
  { p_info_write 1 with
    pid := 4242, p_state := p_state_starting,
    deadline := Function.update (Function.update (Function.update (fun _ => 0) 0 100) 1 100) 2 100 }

/-- The array of the scenarios: the scenario peer at index 1, the others as
configured and not yet launched. -/
def scenario_array : p_info_array := Function.update p_info_write 1 scenario_peer

/-- The environment at the first launch: every command succeeds, every
message file opens, and peer `i` has written the pid `4240 + i`. -/
def launch_all : Fin RTI_federate_nodes → launch_io := fun i =>
  { result := 0, fopen_ok := true, scanned := some (4240 + (i.val : Int)) }

/-- The watch descriptors `1, 2, 3` returned by `inotify_add_watch`. -/
def watch_all : Fin RTI_federate_nodes → Int :=
  Function.update (Function.update (Function.update (fun _ => 0) 0 1) 1 2) 2 3

/-- The array once all three peers have been launched by `executeProgram` in
the environment `launch_all`: peer `i` as configured by `p_info_write`,
starting, with pid `4240 + i`. -/
def running_array : p_info_array :=
  Function.update (Function.update (Function.update p_info_write
    0 { p_info_write 0 with pid := 4240, p_state := p_state_starting })
    1 { p_info_write 1 with pid := 4241, p_state := p_state_starting })
    2 { p_info_write 2 with pid := 4242, p_state := p_state_starting }

/-- The running array after the line `cp: 0` of peer 1: slot 0 of peer 1
counts from `deadline[0] = 1010`. -/
def first_cp_array : p_info_array :=
  Function.update running_array 1
    { running_array 1 with
      cp_num := ['0'],
      cp_array := arm_slot (running_array 1).cp_array (running_array 1).deadline 0 }

/-- The array after the further line `cp: 1` of peer 1: slot 1 of peer 1
counts from `deadline[1] = 100`, slot 0 has been disarmed. -/
def counting_array : p_info_array :=
  Function.update first_cp_array 1
    { first_cp_array 1 with
      cp_num := ['1'],
      cp_array :=
        clear_check_do
          (arm_slot (first_cp_array 1).cp_array (first_cp_array 1).deadline 1) 0 }

/-- The configured array after the line `cp: 0` of peer 1. -/
def configured_cp0_array : p_info_array :=
  Function.update p_info_write 1
    { p_info_write 1 with
      cp_num := ['0'],
      cp_array := arm_slot (p_info_write 1).cp_array (p_info_write 1).deadline 0 }

/-- The array after the further line `cp: 2` of peer 1: slot 2 is armed and
slot 1 disarmed, while slot 0 still counts. -/
def two_active_array : p_info_array :=
  Function.update configured_cp0_array 1
    { configured_cp0_array 1 with
      cp_num := ['2'],
      cp_array :=
        clear_check_do
          (arm_slot (configured_cp0_array 1).cp_array (configured_cp0_array 1).deadline 2) 1 }

/-- The counting array one tick before the deadline of slot 1 of peer 1. -/
def last_tick_array : p_info_array :=
  Function.update counting_array 1
    { counting_array 1 with
      cp_array :=
        Function.update (counting_array 1).cp_array 1
          { (counting_array 1).cp_array 1 with timer_count := 1 } }

/-- An environment in which every command succeeds and every message file
opens, but `fscanf` stores no pid (the file holds no decimal integer). -/
def launch_no_pid : Fin RTI_federate_nodes → launch_io := fun _ =>
  { result := 0, fopen_ok := true, scanned := none }

/-- The array after `executeProgram` in the environment `launch_no_pid`: every
peer is starting and its pid is still the `0` written by `p_info_write`. -/
def unread_pid_array : p_info_array :=
  Function.update (Function.update (Function.update p_info_write
    0 { p_info_write 0 with p_state := p_state_starting })
    1 { p_info_write 1 with p_state := p_state_starting })
    2 { p_info_write 2 with p_state := p_state_starting }

/-- The line `xyz` followed by a newline. -/
def xyz_line : List Char := ['x', 'y', 'z', Char.ofNat 10]

/-- The array after the tick that kills peer 1: peer 1 is terminated. -/
def killed_array : p_info_array := (count_down 1 (kill_ok 0) last_tick_array).1

/-- An environment in which every launch command fails (`system` returns `-1`). -/
def launch_fails : Fin RTI_federate_nodes → launch_io := fun _ =>
  { result := -1, fopen_ok := false, scanned := none }

/-- Kill commands that always fail (`system` returns `-1`). -/
def kill_fails : Fin RTI_federate_nodes → Fin max_cp_num → Int := fun _ _ => -1

/-- The bit `IN_IGNORED` of `<sys/inotify.h>`: the watch was removed, for
instance because the watched file was deleted. -/
abbrev IN_IGNORED : Nat := 32768

/-- A buffer that holds one event: `IN_IGNORED` for the watch descriptor 2,
with no name (`len = 0`).  The batch is 16 bytes long. -/
def ignored_buffer : Nat → inotify_event := fun _ =>
  { wd := 2, mask := IN_IGNORED, cookie := 0, len := 0 }

/-- An environment in which every command succeeds and every message file
opens, and `fscanf` stores the pid `0` (the file holds the text `0`). -/
def launch_zero_pid : Fin RTI_federate_nodes → launch_io := fun _ =>
  { result := 0, fopen_ok := true, scanned := some 0 }

/-- The array after the launch of the peers, the lines `cp: 0`, `cp: 1` of peer
1 and 100 iterations of `count_down` with kill commands that succeed: peer 1
has been killed. -/
def killed_run_array : p_info_array := (count_down_ticks kill_ok 100 counting_array).1

/-- The array after a further pass of `restartProgram` in which the launch
commands succeed and the message files open but no pid can be parsed. -/
def restarted_array : p_info_array :=
  (restartProgram launch_no_pid killed_run_array).getD killed_run_array

/-! ## Reachable arrays -/

/-- The arrays the supervisor can hold: `p_info_write` gives the first one, and
each step is the launch of the peers by `executeProgram`, the ingest of one line
of the message file of a peer, one iteration of `count_down`, or one pass of
`restartProgram`.  `record_ok` says which lines a peer may write given its
record, `launch_ok` which answers the environment may give to a launch. -/
inductive Reachable (record_ok : process_info → List Char → Prop)
    (launch_ok : launch_io → Prop) : p_info_array → Prop
  | init : Reachable record_ok launch_ok p_info_write
  | spawn (s s1 : p_info_array) (inotify_fd : Int) (io : Fin RTI_federate_nodes → launch_io)
      (watch wd wd1 : Fin RTI_federate_nodes → Int) :
      Reachable record_ok launch_ok s → (∀ i, launch_ok (io i)) →
      executeProgram inotify_fd io watch s wd = some (s1, wd1) →
      Reachable record_ok launch_ok s1
  | record (s s1 : p_info_array) (i : Fin RTI_federate_nodes) (line : List Char) :
      Reachable record_ok launch_ok s → record_ok (s i) line →
      ingest i line s = some s1 →
      Reachable record_ok launch_ok s1
  | tick (s : p_info_array) (expirations : Nat)
      (result : Fin RTI_federate_nodes → Fin max_cp_num → Int) :
      Reachable record_ok launch_ok s →
      Reachable record_ok launch_ok (count_down expirations result s).1
  | restart (s s1 : p_info_array) (io : Fin RTI_federate_nodes → launch_io) :
      Reachable record_ok launch_ok s → (∀ i, launch_ok (io i)) →
      restartProgram io s = some s1 →
      Reachable record_ok launch_ok s1

/-- Every line is a CP record `cp: k` with `k` in `[0, max_cp_num)`. -/
def any_cp_record (_p : process_info) (line : List Char) : Prop :=
  ∃ k : Fin max_cp_num, line = cp_line k

/-- No condition on the answers of the environment. -/
def any_launch (_io : launch_io) : Prop := True

/-- The launch does not leave the peer with pid `0`: when the launch command
succeeds, the pid that `fscanf` stores or, nothing being stored, the pid the
record already holds is other than `0`. -/
def pid_kept (p : process_info) (io : launch_io) : Prop :=
  io.result ≠ -1 → io.scanned.getD p.pid ≠ 0

/-- No launch at all: neither `executeProgram` nor `restartProgram` runs. -/
def no_launch (_io : launch_io) : Prop := False

/-- No condition on the lines written. -/
def any_line (_p : process_info) (_line : List Char) : Prop := True

/-- At most one slot of the peer has `check_do` set. -/
def at_most_one_active (p : process_info) : Prop :=
  ∀ j1 j2, (p.cp_array j1).check_do = true → (p.cp_array j2).check_do = true → j1 = j2

/-- The line is a CP record `cp: k` that arrives in sequence order: every slot
of the peer that counts is slot `k` itself or, unless slot `k` is a pure start
slot (`start_cp` without `end_cp`), its predecessor `k - 1`. -/
def in_order_record (p : process_info) (line : List Char) : Prop :=
  ∃ k : Fin max_cp_num, line = cp_line k ∧
    ∀ j, (p.cp_array j).check_do = true →
      j = k ∨ (j.val + 1 = k.val ∧
        ((p.cp_array k).end_cp = true ∨ (p.cp_array k).start_cp = false))

/-- The arrays the supervisor can hold, as `Reachable`, where the answers the
environment may give to a launch depend on the record of the peer that is
launched: `executeProgram` launches every peer, `restartProgram` the peers that
are terminated. -/
inductive ReachableWhen (record_ok : process_info → List Char → Prop)
    (launch_ok : process_info → launch_io → Prop) : p_info_array → Prop
  | init : ReachableWhen record_ok launch_ok p_info_write
  | spawn (s s1 : p_info_array) (inotify_fd : Int) (io : Fin RTI_federate_nodes → launch_io)
      (watch wd wd1 : Fin RTI_federate_nodes → Int) :
      ReachableWhen record_ok launch_ok s → (∀ i, launch_ok (s i) (io i)) →
      executeProgram inotify_fd io watch s wd = some (s1, wd1) →
      ReachableWhen record_ok launch_ok s1
  | record (s s1 : p_info_array) (i : Fin RTI_federate_nodes) (line : List Char) :
      ReachableWhen record_ok launch_ok s → record_ok (s i) line →
      ingest i line s = some s1 →
      ReachableWhen record_ok launch_ok s1
  | tick (s : p_info_array) (expirations : Nat)
      (result : Fin RTI_federate_nodes → Fin max_cp_num → Int) :
      ReachableWhen record_ok launch_ok s →
      ReachableWhen record_ok launch_ok (count_down expirations result s).1
  | restart (s s1 : p_info_array) (io : Fin RTI_federate_nodes → launch_io) :
      ReachableWhen record_ok launch_ok s →
      (∀ i, (s i).p_state = p_state_terminated → launch_ok (s i) (io i)) →
      restartProgram io s = some s1 →
      ReachableWhen record_ok launch_ok s1

/-- The line is a CP record `cp: k` that does not arm a second slot: slot `k`
has `end_cp` (the record arms nothing), or every slot of the peer that counts
is slot `k` itself or, when slot `k` has no `start_cp`, the slot `k - 1` that
the record disarms. -/
def record_in_turn (p : process_info) (line : List Char) : Prop :=
  ∃ k : Fin max_cp_num, line = cp_line k ∧
    ((p.cp_array k).end_cp = true ∨
      ∀ j, (p.cp_array j).check_do = true →
        j = k ∨ ((p.cp_array k).start_cp = false ∧ j.val + 1 = k.val))

/-- What the loop body of `restartProgram` does to the record of the peer it visits. -/
def restart_record (io : launch_io) (p : process_info) : Option process_info :=
  if p.p_state = p_state_terminated then
    if io.result = -1 then some p else launch_success io p
  else some p

/-- What the loop body of `executeProgram` does to the record of the peer it
visits, when the program goes on. -/
def execute_record (io : launch_io) (p : process_info) : Option process_info :=
  if io.result = -1 then some p else launch_success io p

instance (p : process_info) : Decidable (at_most_one_active p) := by
  unfold at_most_one_active; infer_instance

instance (p : process_info) (line : List Char) : Decidable (any_cp_record p line) := by
  unfold any_cp_record; infer_instance

instance (p : process_info) (line : List Char) : Decidable (in_order_record p line) := by
  unfold in_order_record; infer_instance

instance (p : process_info) (line : List Char) : Decidable (record_in_turn p line) := by
  unfold record_in_turn; infer_instance

/-! ## Runs of records and ticks -/

/-- A step of a run: the ingest of one line of the message file of a peer, or
one iteration of `count_down` with the given expiration count and kill results. -/
inductive supervisor_event where
  | record (i : Fin RTI_federate_nodes) (line : List Char)
  | tick (expirations : Nat) (result : Fin RTI_federate_nodes → Fin max_cp_num → Int)

/-- One step of a run on the array and the log of the kill commands issued so far. -/
def run_event (ev : supervisor_event)
    (acc : p_info_array × List (Fin RTI_federate_nodes × Int)) :
    Option (p_info_array × List (Fin RTI_federate_nodes × Int)) :=
  match ev with
  | supervisor_event.record i line => (ingest i line acc.1).map (fun s1 => (s1, acc.2))
  | supervisor_event.tick e result =>
    some ((count_down e result acc.1).1, acc.2 ++ (count_down e result acc.1).2)

/-- A run: the steps in order; `none` when an ingest has no defined result. -/
def run_events (evs : List supervisor_event)
    (acc : p_info_array × List (Fin RTI_federate_nodes × Int)) :
    Option (p_info_array × List (Fin RTI_federate_nodes × Int)) :=
  evs.foldlM (fun a ev => run_event ev a) acc

/-- The line `cp: k` followed by a newline, for a one-digit index given as a number. -/
def cp_record (k : Nat) : List Char :=
  ['c', 'p', ':', ' ', Char.ofNat (48 + k), Char.ofNat 10]

/-- The run of timely progress of peer `i` from record `k` on: the line `cp: k`,
then one tick for every entry of the first gap (the entry gives the kill
results of that tick), then the line `cp: (k + 1)`, and so on; after the last
gap comes the last record. -/
def timely_events (i : Fin RTI_federate_nodes) :
    Nat → List (List (Fin RTI_federate_nodes → Fin max_cp_num → Int)) → List supervisor_event
  | k, [] => [supervisor_event.record i (cp_record k)]
  | k, g :: gaps =>
    supervisor_event.record i (cp_record k) ::
      (g.map (fun result => supervisor_event.tick 1 result) ++ timely_events i (k + 1) gaps)

/-- The gaps fit the configuration `p0` from slot `k` on: every slot that has a
gap after it is without `end_cp`, has `start_cp` exactly when it is slot 0, and
a budget within the range of `int` that exceeds the number of ticks of its gap;
the slot after the last gap is not slot 0 and has `end_cp`. -/
def timely_schedule (p0 : process_info) :
    Nat → List (List (Fin RTI_federate_nodes → Fin max_cp_num → Int)) → Prop
  | k, [] => ∃ h : k < max_cp_num, 0 < k ∧ (p0.cp_array ⟨k, h⟩).end_cp = true
  | k, g :: gaps =>
    (∃ h : k < max_cp_num, (p0.cp_array ⟨k, h⟩).end_cp = false ∧
      (k = 0 → (p0.cp_array ⟨k, h⟩).start_cp = true) ∧
      (0 < k → (p0.cp_array ⟨k, h⟩).start_cp = false) ∧
      (g.length : Int) < p0.deadline ⟨k, h⟩ ∧ p0.deadline ⟨k, h⟩ ≤ 2147483647) ∧
    timely_schedule p0 (k + 1) gaps

/-- The state of peer `i` between two records of a timely run, just before the
record `k`: the peer is starting, its flags and budgets are those of `p0`, no
slot other than `k - 1` counts, and no kill command was issued for the peer. -/
def timely_inv (p0 : process_info) (i : Fin RTI_federate_nodes) (k : Nat)
    (acc : p_info_array × List (Fin RTI_federate_nodes × Int)) : Prop :=
  (acc.1 i).p_state = p_state_starting ∧
  (∀ j, ((acc.1 i).cp_array j).start_cp = (p0.cp_array j).start_cp ∧
    ((acc.1 i).cp_array j).end_cp = (p0.cp_array j).end_cp) ∧
  (acc.1 i).deadline = p0.deadline ∧
  (∀ j : Fin max_cp_num, ((acc.1 i).cp_array j).check_do = true → j.val + 1 = k) ∧
  (∀ pid, (i, pid) ∉ acc.2)

/-- The gaps of the scenario of timely progress: three gaps of 50 ticks, the
kill commands of every tick succeeding. -/
def scenario_gaps : List (List (Fin RTI_federate_nodes → Fin max_cp_num → Int)) :=
  List.replicate 3 (List.replicate 50 (kill_ok 0))

/-! ## Lemmas on `time_count_update` -/

theorem clear_check_do_same (a : Fin max_cp_num → cp_info) (j : Fin max_cp_num) :
    clear_check_do a j j = { a j with check_do := false } := by
  simp [clear_check_do]

theorem clear_check_do_other (a : Fin max_cp_num → cp_info) (j i : Fin max_cp_num) (h : i ≠ j) :
    clear_check_do a j i = a i := by
  simp [clear_check_do, Function.update_noteq h]

theorem arm_slot_same (a : Fin max_cp_num → cp_info) (d : Fin 10 → Int) (j : Fin max_cp_num) :
    arm_slot a d j j = { a j with timer_count := d j, check_do := true } := by
  simp [arm_slot]

theorem arm_slot_other (a : Fin max_cp_num → cp_info) (d : Fin 10 → Int) (j i : Fin max_cp_num)
    (h : i ≠ j) : arm_slot a d j i = a i := by
  simp [arm_slot, Function.update_noteq h]

/-- The body of `time_count_update` once the token is known to denote slot `k`. -/
theorem time_count_update_eq (p : process_info) (k : Fin max_cp_num)
    (hnum : atoi p.cp_num = (k.val : Int)) :
    time_count_update p =
      if (p.cp_array k).end_cp = true then
        if h0 : 0 < k.val then
          some { p with cp_array := clear_check_do p.cp_array ⟨k.val - 1, by omega⟩ }
        else none
      else if (p.cp_array k).start_cp = true then
        some { p with cp_array := arm_slot p.cp_array p.deadline k }
      else
        if h0 : 0 < k.val then
          some { p with cp_array :=
            clear_check_do (arm_slot p.cp_array p.deadline k) ⟨k.val - 1, by omega⟩ }
        else none := by
  have hk : (⟨(atoi p.cp_num).toNat, by rw [hnum]; simp⟩ : Fin max_cp_num) = k := by
    apply Fin.ext; simp [hnum]
  have hr : 0 ≤ atoi p.cp_num ∧ atoi p.cp_num < (max_cp_num : Int) := by
    rw [hnum]; have := k.isLt; constructor <;> omega
  have hv : (atoi p.cp_num).toNat = k.val := by simp [hnum]
  unfold time_count_update
  simp only [dif_pos hr, hk, hv]

/-- The token stored by `sscanf` for the line `cp: k`. -/
theorem sscanf_cp_cp_line (k : Fin max_cp_num) :
    sscanf_cp (cp_line k) = some [Char.ofNat (48 + k.val)] := by
  revert k; decide

/-- The value `atoi` gives for the token of the line `cp: k`. -/
theorem atoi_digit (k : Fin max_cp_num) : atoi [Char.ofNat (48 + k.val)] = (k.val : Int) := by
  revert k; decide

/-- Ingesting the line `cp: k` is `time_count_update` on the peer holding that token. -/
theorem watch_cp_write_line_cp_line (k : Fin max_cp_num) (p : process_info) :
    watch_cp_write_line (cp_line k) p =
      time_count_update { p with cp_num := [Char.ofNat (48 + k.val)] } := by
  simp [watch_cp_write_line, sscanf_cp_cp_line]

/-! ## Lemmas on `count_down` -/

theorem count_down_peer_eq (result : Fin max_cp_num → Int) (p : process_info) :
    count_down_peer result p = count_down_slots result (List.finRange max_cp_num) (p, []) := rfl

theorem count_down_slots_nil (result : Fin max_cp_num → Int) (acc : process_info × List Int) :
    count_down_slots result [] acc = acc := rfl

theorem count_down_slots_cons (result : Fin max_cp_num → Int) (j : Fin max_cp_num)
    (js : List (Fin max_cp_num)) (acc : process_info × List Int) :
    count_down_slots result (j :: js) acc =
      count_down_slots result js (count_down_slot (result j) acc j) := rfl

theorem count_down_slot_eq (r : Int) (acc : process_info × List Int) (j : Fin max_cp_num) :
    count_down_slot r acc j =
      if (acc.1.cp_array j).check_do = true ∧ acc.1.p_state = p_state_starting then
        if int_wrap ((acc.1.cp_array j).timer_count - 1) = 0 then
          if r = -1 then (dec_slot acc.1 j, acc.2 ++ [acc.1.pid])
          else ({ dec_slot acc.1 j with p_state := p_state_terminated }, acc.2 ++ [acc.1.pid])
        else (dec_slot acc.1 j, acc.2)
      else acc := rfl

theorem count_down_slot_inactive (r : Int) (acc : process_info × List Int) (j : Fin max_cp_num)
    (h : (acc.1.cp_array j).check_do = false) : count_down_slot r acc j = acc := by
  simp [count_down_slot, h]

theorem count_down_slot_not_starting (r : Int) (acc : process_info × List Int)
    (j : Fin max_cp_num) (h : acc.1.p_state ≠ p_state_starting) :
    count_down_slot r acc j = acc := by
  simp [count_down_slot, h]

theorem count_down_slot_pid (r : Int) (acc : process_info × List Int) (j : Fin max_cp_num) :
    (count_down_slot r acc j).1.pid = acc.1.pid := by
  rw [count_down_slot_eq]; split_ifs <;> rfl

theorem count_down_slot_deadline (r : Int) (acc : process_info × List Int) (j : Fin max_cp_num) :
    (count_down_slot r acc j).1.deadline = acc.1.deadline := by
  rw [count_down_slot_eq]; split_ifs <;> rfl

theorem count_down_slot_check_do (r : Int) (acc : process_info × List Int)
    (j i : Fin max_cp_num) :
    ((count_down_slot r acc j).1.cp_array i).check_do = (acc.1.cp_array i).check_do := by
  rw [count_down_slot_eq]
  by_cases hij : i = j
  · subst hij; split_ifs <;> simp [dec_slot]
  · split_ifs <;> simp [dec_slot, Function.update_noteq hij]

theorem count_down_slot_flags (r : Int) (acc : process_info × List Int)
    (j i : Fin max_cp_num) :
    ((count_down_slot r acc j).1.cp_array i).start_cp = (acc.1.cp_array i).start_cp ∧
    ((count_down_slot r acc j).1.cp_array i).end_cp = (acc.1.cp_array i).end_cp := by
  rw [count_down_slot_eq]
  by_cases hij : i = j
  · subst hij; split_ifs <;> simp [dec_slot]
  · split_ifs <;> simp [dec_slot, Function.update_noteq hij]

theorem count_down_slot_timer_other (r : Int) (acc : process_info × List Int)
    (j i : Fin max_cp_num) (hij : i ≠ j) :
    ((count_down_slot r acc j).1.cp_array i).timer_count = (acc.1.cp_array i).timer_count := by
  rw [count_down_slot_eq]
  split_ifs <;> simp [dec_slot, Function.update_noteq hij]

theorem count_down_slot_state (r : Int) (acc : process_info × List Int) (j : Fin max_cp_num) :
    (count_down_slot r acc j).1.p_state = acc.1.p_state ∨
      (acc.1.p_state = p_state_starting ∧
        (count_down_slot r acc j).1.p_state = p_state_terminated) := by
  rw [count_down_slot_eq]
  split_ifs with h1 h2 h3
  · left; rfl
  · right; exact ⟨h1.2, rfl⟩
  · left; rfl
  · left; rfl

theorem count_down_slots_pid (result : Fin max_cp_num → Int) (js : List (Fin max_cp_num)) :
    ∀ acc, (count_down_slots result js acc).1.pid = acc.1.pid := by
  induction js with
  | nil => intro acc; rfl
  | cons j js ih =>
    intro acc
    rw [count_down_slots_cons, ih, count_down_slot_pid]

theorem count_down_slots_deadline (result : Fin max_cp_num → Int) (js : List (Fin max_cp_num)) :
    ∀ acc, (count_down_slots result js acc).1.deadline = acc.1.deadline := by
  induction js with
  | nil => intro acc; rfl
  | cons j js ih =>
    intro acc
    rw [count_down_slots_cons, ih, count_down_slot_deadline]

theorem count_down_slots_check_do (result : Fin max_cp_num → Int) (js : List (Fin max_cp_num))
    (i : Fin max_cp_num) :
    ∀ acc, ((count_down_slots result js acc).1.cp_array i).check_do =
      (acc.1.cp_array i).check_do := by
  induction js with
  | nil => intro acc; rfl
  | cons j js ih =>
    intro acc
    rw [count_down_slots_cons, ih, count_down_slot_check_do]

theorem count_down_slots_flags (result : Fin max_cp_num → Int) (js : List (Fin max_cp_num))
    (i : Fin max_cp_num) :
    ∀ acc, ((count_down_slots result js acc).1.cp_array i).start_cp = (acc.1.cp_array i).start_cp ∧
      ((count_down_slots result js acc).1.cp_array i).end_cp = (acc.1.cp_array i).end_cp := by
  induction js with
  | nil => intro acc; exact ⟨rfl, rfl⟩
  | cons j js ih =>
    intro acc
    rw [count_down_slots_cons]
    have h1 := ih (count_down_slot (result j) acc j)
    have h2 := count_down_slot_flags (result j) acc j i
    exact ⟨h1.1.trans h2.1, h1.2.trans h2.2⟩

/-- With no slot of `js` other than `k` counting, the loop over `js` is the
loop body at `k` when `k` is in `js`, and nothing otherwise. -/
theorem count_down_slots_single (result : Fin max_cp_num → Int) (k : Fin max_cp_num)
    (js : List (Fin max_cp_num)) (hnd : js.Nodup) :
    ∀ acc, (∀ j ∈ js, j ≠ k → (acc.1.cp_array j).check_do = false) →
      count_down_slots result js acc =
        if k ∈ js then count_down_slot (result k) acc k else acc := by
  induction js with
  | nil => intro acc _; simp [count_down_slots_nil]
  | cons j js ih =>
    intro acc hacc
    rw [count_down_slots_cons]
    have hnd2 : js.Nodup := (List.nodup_cons.mp hnd).2
    have hj : j ∉ js := (List.nodup_cons.mp hnd).1
    by_cases hjk : j = k
    · subst hjk
      have hrest : ∀ i ∈ js, i ≠ j →
          ((count_down_slot (result j) acc j).1.cp_array i).check_do = false := by
        intro i hi hne
        rw [count_down_slot_check_do]
        exact hacc i (List.mem_cons_of_mem _ hi) hne
      rw [ih hnd2 _ hrest]
      simp [hj]
    · have hin : count_down_slot (result j) acc j = acc :=
        count_down_slot_inactive _ _ _ (hacc j (List.mem_cons_self _ _) hjk)
      rw [hin, ih hnd2 acc (fun i hi hne => hacc i (List.mem_cons_of_mem _ hi) hne)]
      have hkj : k ≠ j := fun h => hjk h.symm
      simp [hkj]

/-- One pass of `count_down` on a peer whose only counting slot is `k`. -/
theorem count_down_peer_single (result : Fin max_cp_num → Int) (p : process_info)
    (k : Fin max_cp_num) (h : ∀ j, j ≠ k → (p.cp_array j).check_do = false) :
    count_down_peer result p = count_down_slot (result k) (p, []) k := by
  rw [count_down_peer_eq, count_down_slots_single result k _ (List.nodup_finRange _)]
  · simp
  · intro j _ hj; exact h j hj

/-- One pass of `count_down` on a peer with no counting slot changes nothing. -/
theorem count_down_peer_idle (result : Fin max_cp_num → Int) (p : process_info)
    (h : ∀ j, (p.cp_array j).check_do = false) :
    count_down_peer result p = (p, []) := by
  rw [count_down_peer_single result p 0 (fun j _ => h j)]
  exact count_down_slot_inactive _ _ _ (h 0)

/-- One pass of `count_down` on a peer that is not starting changes nothing. -/
theorem count_down_slots_not_starting (result : Fin max_cp_num → Int)
    (js : List (Fin max_cp_num)) :
    ∀ acc, acc.1.p_state ≠ p_state_starting → count_down_slots result js acc = acc := by
  induction js with
  | nil => intro acc _; rfl
  | cons j js ih =>
    intro acc h
    rw [count_down_slots_cons, count_down_slot_not_starting _ _ _ h, ih acc h]

/-- The pass over all peers acts on each peer by the inner loop alone. -/
theorem count_down_pass_eq (result : Fin RTI_federate_nodes → Fin max_cp_num → Int)
    (s : p_info_array) :
    count_down_pass result s =
      (fun i => (count_down_peer (result i) (s i)).1,
        (count_down_peer (result 0) (s 0)).2.map (fun pid => ((0 : Fin RTI_federate_nodes), pid)) ++
        (count_down_peer (result 1) (s 1)).2.map (fun pid => ((1 : Fin RTI_federate_nodes), pid)) ++
        (count_down_peer (result 2) (s 2)).2.map (fun pid => ((2 : Fin RTI_federate_nodes), pid))) := by
  have h3 : List.finRange RTI_federate_nodes = [0, 1, 2] := by decide
  unfold count_down_pass
  rw [h3]
  simp only [List.foldl_cons, List.foldl_nil, List.nil_append]
  refine Prod.ext ?_ ?_
  · funext i
    have hi : i = 0 ∨ i = 1 ∨ i = 2 := by revert i; decide
    rcases hi with rfl | rfl | rfl <;> simp [Function.update]
  · simp [Function.update]

theorem count_down_pass_peer (result : Fin RTI_federate_nodes → Fin max_cp_num → Int)
    (s : p_info_array) (i : Fin RTI_federate_nodes) :
    (count_down_pass result s).1 i = (count_down_peer (result i) (s i)).1 := by
  rw [count_down_pass_eq]

theorem count_down_pass_log (result : Fin RTI_federate_nodes → Fin max_cp_num → Int)
    (s : p_info_array) (i : Fin RTI_federate_nodes) (pid : Int) :
    (i, pid) ∈ (count_down_pass result s).2 ↔ pid ∈ (count_down_peer (result i) (s i)).2 := by
  rw [count_down_pass_eq]
  have hi : i = 0 ∨ i = 1 ∨ i = 2 := by revert i; decide
  rcases hi with rfl | rfl | rfl <;> simp

/-! ## A single counting slot under repeated ticks -/

theorem int_wrap_of_int_range (x : Int) (h1 : -2147483648 ≤ x) (h2 : x ≤ 2147483647) :
    int_wrap x = x := by
  unfold int_wrap; omega

theorem dec_slot_timer (p : process_info) (j : Fin max_cp_num) :
    ((dec_slot p j).cp_array j).timer_count = int_wrap ((p.cp_array j).timer_count - 1) := by
  simp [dec_slot]

theorem dec_slot_check_do (p : process_info) (j i : Fin max_cp_num) :
    ((dec_slot p j).cp_array i).check_do = (p.cp_array i).check_do := by
  by_cases hij : i = j
  · subst hij; simp [dec_slot]
  · simp [dec_slot, Function.update_noteq hij]

/-- A tick on a starting peer whose only counting slot `k` does not reach zero:
the slot is decremented and no kill command is issued. -/
theorem count_down_peer_single_no_fire (result : Fin max_cp_num → Int) (p : process_info)
    (k : Fin max_cp_num) (hst : p.p_state = p_state_starting)
    (hk : (p.cp_array k).check_do = true)
    (hothers : ∀ j, j ≠ k → (p.cp_array j).check_do = false)
    (hne : int_wrap ((p.cp_array k).timer_count - 1) ≠ 0) :
    count_down_peer result p = (dec_slot p k, []) := by
  rw [count_down_peer_single result p k hothers, count_down_slot_eq]
  simp [hst, hk, hne]

/-- A tick on a starting peer whose only counting slot `k` reaches zero: the
kill command is issued for the pid of the peer, and when it does not return
`-1` the peer becomes terminated. -/
theorem count_down_peer_single_fire (result : Fin max_cp_num → Int) (p : process_info)
    (k : Fin max_cp_num) (hst : p.p_state = p_state_starting)
    (hk : (p.cp_array k).check_do = true)
    (hothers : ∀ j, j ≠ k → (p.cp_array j).check_do = false)
    (hz : int_wrap ((p.cp_array k).timer_count - 1) = 0) (hres : result k ≠ -1) :
    count_down_peer result p =
      ({ dec_slot p k with p_state := p_state_terminated }, [p.pid]) := by
  rw [count_down_peer_single result p k hothers, count_down_slot_eq]
  simp [hst, hk, hz, hres]

theorem count_down_ticks_succ (result : Nat → Fin RTI_federate_nodes → Fin max_cp_num → Int)
    (n : Nat) (s : p_info_array) :
    count_down_ticks result (n + 1) s =
      ((count_down_pass (result n) (count_down_ticks result n s).1).1,
        (count_down_ticks result n s).2 ++
          (count_down_pass (result n) (count_down_ticks result n s).1).2) := rfl

/-- While fewer ticks have run than the count of the only counting slot `k` of
a starting peer, the peer stays starting, keeps its pid and its flags, slot `k`
has lost one unit per tick, and no kill command has been issued for the peer. -/
theorem count_down_ticks_before (result : Nat → Fin RTI_federate_nodes → Fin max_cp_num → Int)
    (s : p_info_array) (i : Fin RTI_federate_nodes) (k : Fin max_cp_num) (t : Nat)
    (hst : (s i).p_state = p_state_starting)
    (hk : ((s i).cp_array k).check_do = true)
    (hothers : ∀ j, j ≠ k → ((s i).cp_array j).check_do = false)
    (htc : ((s i).cp_array k).timer_count = (t : Int)) (ht : t ≤ 2147483647) :
    ∀ n, n < t →
      ((count_down_ticks result n s).1 i).p_state = p_state_starting ∧
      ((count_down_ticks result n s).1 i).pid = (s i).pid ∧
      (∀ j, (((count_down_ticks result n s).1 i).cp_array j).check_do =
        ((s i).cp_array j).check_do) ∧
      (((count_down_ticks result n s).1 i).cp_array k).timer_count = (t : Int) - (n : Int) ∧
      (∀ pid, (i, pid) ∉ (count_down_ticks result n s).2) := by
  intro n
  induction n with
  | zero =>
    intro _
    refine ⟨hst, rfl, fun _ => rfl, ?_, ?_⟩
    · simpa [count_down_ticks] using htc
    · intro pid; simp [count_down_ticks]
  | succ n ih =>
    intro hn
    obtain ⟨h1, h2, h3, h4, h5⟩ := ih (by omega)
    have hk2 : (((count_down_ticks result n s).1 i).cp_array k).check_do = true := by
      rw [h3]; exact hk
    have ho2 : ∀ j, j ≠ k → (((count_down_ticks result n s).1 i).cp_array j).check_do = false := by
      intro j hj; rw [h3]; exact hothers j hj
    have hw : int_wrap ((((count_down_ticks result n s).1 i).cp_array k).timer_count - 1) =
        (t : Int) - (n : Int) - 1 := by
      rw [h4]; apply int_wrap_of_int_range <;> omega
    have hne : int_wrap ((((count_down_ticks result n s).1 i).cp_array k).timer_count - 1) ≠ 0 := by
      rw [hw]; omega
    have hpeer := count_down_peer_single_no_fire (result n i) _ k h1 hk2 ho2 hne
    rw [count_down_ticks_succ]
    refine ⟨?_, ?_, ?_, ?_, ?_⟩
    · simp only [count_down_pass_peer, hpeer]; exact h1
    · simp only [count_down_pass_peer, hpeer]; exact h2
    · intro j
      simp only [count_down_pass_peer, hpeer]
      rw [dec_slot_check_do, h3]
    · simp only [count_down_pass_peer, hpeer]
      rw [dec_slot_timer, hw]; push_cast; ring
    · intro pid hmem
      rcases List.mem_append.mp hmem with h | h
      · exact h5 pid h
      · rw [count_down_pass_log, hpeer] at h
        simp at h

/-- The tick that completes the count of the only counting slot of a starting
peer issues the kill command for the pid of the peer and, the command not
returning `-1`, leaves the peer terminated. -/
theorem count_down_ticks_at (result : Nat → Fin RTI_federate_nodes → Fin max_cp_num → Int)
    (s : p_info_array) (i : Fin RTI_federate_nodes) (k : Fin max_cp_num) (t : Nat)
    (hst : (s i).p_state = p_state_starting)
    (hk : ((s i).cp_array k).check_do = true)
    (hothers : ∀ j, j ≠ k → ((s i).cp_array j).check_do = false)
    (htc : ((s i).cp_array k).timer_count = ((t + 1 : Nat) : Int)) (ht : t + 1 ≤ 2147483647)
    (hres : result t i k ≠ -1) :
    ((count_down_ticks result (t + 1) s).1 i).p_state = p_state_terminated ∧
    ((count_down_ticks result (t + 1) s).1 i).pid = (s i).pid ∧
    (∀ j, (((count_down_ticks result (t + 1) s).1 i).cp_array j).check_do =
      ((s i).cp_array j).check_do) ∧
    (((count_down_ticks result (t + 1) s).1 i).cp_array k).timer_count = 0 ∧
    (i, (s i).pid) ∈ (count_down_ticks result (t + 1) s).2 := by
  obtain ⟨h1, h2, h3, h4, _⟩ :=
    count_down_ticks_before result s i k (t + 1) hst hk hothers htc ht t (by omega)
  have hk2 : (((count_down_ticks result t s).1 i).cp_array k).check_do = true := by
    rw [h3]; exact hk
  have ho2 : ∀ j, j ≠ k → (((count_down_ticks result t s).1 i).cp_array j).check_do = false := by
    intro j hj; rw [h3]; exact hothers j hj
  have hw : int_wrap ((((count_down_ticks result t s).1 i).cp_array k).timer_count - 1) = 0 := by
    rw [h4]; unfold int_wrap; push_cast; omega
  have hpeer := count_down_peer_single_fire (result t i) _ k h1 hk2 ho2 hw hres
  rw [count_down_ticks_succ]
  refine ⟨?_, ?_, ?_, ?_, ?_⟩
  · simp only [count_down_pass_peer, hpeer]
  · simp only [count_down_pass_peer, hpeer]; exact h2
  · intro j
    simp only [count_down_pass_peer, hpeer]
    rw [dec_slot_check_do, h3]
  · simp only [count_down_pass_peer, hpeer]
    rw [dec_slot_timer, hw]
  · apply List.mem_append_right
    rw [count_down_pass_log, hpeer, h2]
    simp

/-! ## Ingest of a record that arms its slot -/

/-- The line `cp: k` for a slot without `end_cp`, which has `start_cp` or a
predecessor: the ingest returns, slot `k` counts from `deadline[k]`, and no
other slot starts counting. -/
theorem watch_cp_write_line_arms (p : process_info) (k : Fin max_cp_num)
    (hend : (p.cp_array k).end_cp = false)
    (hrole : (p.cp_array k).start_cp = true ∨ 0 < k.val) :
    ∃ q, watch_cp_write_line (cp_line k) p = some q ∧
      q.p_state = p.p_state ∧ q.pid = p.pid ∧ q.deadline = p.deadline ∧
      (q.cp_array k).check_do = true ∧
      (q.cp_array k).timer_count = p.deadline k ∧
      (∀ j, j ≠ k → (p.cp_array j).check_do = false → (q.cp_array j).check_do = false) := by
  rw [watch_cp_write_line_cp_line, time_count_update_eq _ k (atoi_digit k)]
  by_cases hs : (p.cp_array k).start_cp = true
  · refine ⟨{ p with cp_num := [Char.ofNat (48 + k.val)],
                     cp_array := arm_slot p.cp_array p.deadline k }, ?_, rfl, rfl, rfl, ?_, ?_, ?_⟩
    · simp [hend, hs]
    · simp [arm_slot_same]
    · simp [arm_slot_same]
    · intro j hj hin
      simpa [arm_slot_other _ _ _ _ hj] using hin
  · have h0 : 0 < k.val := by
      rcases hrole with h | h
      · exact absurd h hs
      · exact h
    have hne : k ≠ (⟨k.val - 1, by omega⟩ : Fin max_cp_num) := by
      intro h
      have := congrArg Fin.val h
      simp at this
      omega
    refine ⟨{ p with cp_num := [Char.ofNat (48 + k.val)],
                     cp_array := clear_check_do (arm_slot p.cp_array p.deadline k)
                       ⟨k.val - 1, by omega⟩ }, ?_, rfl, rfl, rfl, ?_, ?_, ?_⟩
    · simp [hend, hs, h0]
    · simp [clear_check_do_other _ _ _ hne, arm_slot_same]
    · simp [clear_check_do_other _ _ _ hne, arm_slot_same]
    · intro j hj hin
      by_cases hjm : j = (⟨k.val - 1, by omega⟩ : Fin max_cp_num)
      · rw [hjm]; simp [clear_check_do_same]
      · simp only [clear_check_do_other _ _ _ hjm, arm_slot_other _ _ _ _ hj]
        exact hin

/-! ## Lemmas on `restartProgram` and `executeProgram` -/

theorem restartProgram_peer_spec (io : launch_io) (s s1 : p_info_array)
    (a : Fin RTI_federate_nodes) (h : restartProgram_peer io s a = some s1) :
    restart_record io (s a) = some (s1 a) ∧ ∀ i, i ≠ a → s1 i = s i := by
  unfold restartProgram_peer at h
  unfold restart_record
  by_cases hst : (s a).p_state = p_state_terminated
  · by_cases hr : io.result = -1
    · simp only [hst, hr, if_true] at h ⊢
      cases h
      exact ⟨rfl, fun _ _ => rfl⟩
    · simp only [hst, hr, if_true, if_false, Option.map_eq_some'] at h ⊢
      obtain ⟨q, hq, rfl⟩ := h
      refine ⟨by simp [hq], fun i hi => by simp [Function.update_noteq hi]⟩
  · simp only [hst, if_false] at h ⊢
    cases h
    exact ⟨rfl, fun _ _ => rfl⟩

theorem restartProgram_fold (io : Fin RTI_federate_nodes → launch_io)
    (l : List (Fin RTI_federate_nodes)) (hnd : l.Nodup) :
    ∀ s s1, l.foldlM (fun acc i => restartProgram_peer (io i) acc i) s = some s1 →
      ∀ i, (i ∈ l → restart_record (io i) (s i) = some (s1 i)) ∧ (i ∉ l → s1 i = s i) := by
  induction l with
  | nil =>
    intro s s1 h i
    simp only [List.foldlM_nil] at h
    cases h
    simp
  | cons a l ih =>
    intro s s1 h i
    rw [List.foldlM_cons] at h
    obtain ⟨s2, h2, h3⟩ := Option.bind_eq_some.mp h
    obtain ⟨ha, hother⟩ := restartProgram_peer_spec (io a) s s2 a h2
    have hal : a ∉ l := (List.nodup_cons.mp hnd).1
    have hrec := ih (List.nodup_cons.mp hnd).2 s2 s1 h3
    by_cases hia : i = a
    · subst hia
      refine ⟨fun _ => ?_, fun hn => absurd (List.mem_cons_self _ _) hn⟩
      rw [(hrec i).2 hal]; exact ha
    · refine ⟨fun hm => ?_, fun hn => ?_⟩
      · have hil : i ∈ l := by
          rcases List.mem_cons.mp hm with h | h
          · exact absurd h hia
          · exact h
        rw [← hother i hia]; exact (hrec i).1 hil
      · have hil : i ∉ l := fun h => hn (List.mem_cons_of_mem _ h)
        rw [(hrec i).2 hil, hother i hia]

/-- A pass of `restartProgram` that returns has applied the loop body to the
record of every peer. -/
theorem restartProgram_spec (io : Fin RTI_federate_nodes → launch_io) (s s1 : p_info_array)
    (h : restartProgram io s = some s1) (i : Fin RTI_federate_nodes) :
    restart_record (io i) (s i) = some (s1 i) :=
  (restartProgram_fold io _ (List.nodup_finRange _) s s1 h i).1 (List.mem_finRange i)

theorem executeProgram_peer_spec (io : launch_io) (watch : Int)
    (acc acc1 : p_info_array × (Fin RTI_federate_nodes → Int))
    (a : Fin RTI_federate_nodes) (h : executeProgram_peer io watch acc a = some acc1) :
    execute_record io (acc.1 a) = some (acc1.1 a) ∧ ∀ i, i ≠ a → acc1.1 i = acc.1 i := by
  unfold executeProgram_peer at h
  unfold execute_record
  by_cases hr : io.result = -1
  · simp only [hr, if_true] at h ⊢
    cases h
    exact ⟨rfl, fun _ _ => rfl⟩
  · simp only [hr, if_false] at h ⊢
    cases hl : launch_success io (acc.1 a) with
    | none => simp [hl] at h
    | some q =>
      simp only [hl] at h
      by_cases hw : watch = -1
      · simp [hw] at h
      · simp only [hw, if_false, Option.some.injEq] at h
        subst h
        exact ⟨by simp, fun i hi => by simp [Function.update_noteq hi]⟩

theorem executeProgram_fold (io : Fin RTI_federate_nodes → launch_io)
    (watch : Fin RTI_federate_nodes → Int)
    (l : List (Fin RTI_federate_nodes)) (hnd : l.Nodup) :
    ∀ acc acc1, l.foldlM (fun acc i => executeProgram_peer (io i) (watch i) acc i) acc = some acc1 →
      ∀ i, (i ∈ l → execute_record (io i) (acc.1 i) = some (acc1.1 i)) ∧
        (i ∉ l → acc1.1 i = acc.1 i) := by
  induction l with
  | nil =>
    intro acc acc1 h i
    simp only [List.foldlM_nil] at h
    cases h
    simp
  | cons a l ih =>
    intro acc acc1 h i
    rw [List.foldlM_cons] at h
    obtain ⟨acc2, h2, h3⟩ := Option.bind_eq_some.mp h
    obtain ⟨ha, hother⟩ := executeProgram_peer_spec (io a) (watch a) acc acc2 a h2
    have hal : a ∉ l := (List.nodup_cons.mp hnd).1
    have hrec := ih (List.nodup_cons.mp hnd).2 acc2 acc1 h3
    by_cases hia : i = a
    · subst hia
      refine ⟨fun _ => ?_, fun hn => absurd (List.mem_cons_self _ _) hn⟩
      rw [(hrec i).2 hal]; exact ha
    · refine ⟨fun hm => ?_, fun hn => ?_⟩
      · have hil : i ∈ l := by
          rcases List.mem_cons.mp hm with h | h
          · exact absurd h hia
          · exact h
        rw [← hother i hia]; exact (hrec i).1 hil
      · have hil : i ∉ l := fun h => hn (List.mem_cons_of_mem _ h)
        rw [(hrec i).2 hil, hother i hia]

/-- A call of `executeProgram` that returns has applied the loop body to the
record of every peer. -/
theorem executeProgram_spec (inotify_fd : Int) (io : Fin RTI_federate_nodes → launch_io)
    (watch : Fin RTI_federate_nodes → Int) (s s1 : p_info_array)
    (wd wd1 : Fin RTI_federate_nodes → Int)
    (h : executeProgram inotify_fd io watch s wd = some (s1, wd1))
    (i : Fin RTI_federate_nodes) :
    execute_record (io i) (s i) = some (s1 i) := by
  unfold executeProgram at h
  by_cases hfd : inotify_fd = -1
  · simp [hfd] at h
  · simp only [hfd, if_false] at h
    exact (executeProgram_fold io watch _ (List.nodup_finRange _) (s, wd) (s1, wd1) h i).1
      (List.mem_finRange i)

/-- The record after a successful launch: starting, the slots and budgets as
they were, the pid either read from the file or left as it was. -/
theorem launch_success_spec (io : launch_io) (p q : process_info)
    (h : launch_success io p = some q) :
    q.p_state = p_state_starting ∧ q.cp_array = p.cp_array ∧ q.deadline = p.deadline ∧
      ((io.scanned = none ∧ q.pid = p.pid) ∨ io.scanned = some q.pid) := by
  unfold launch_success at h
  by_cases hf : io.fopen_ok = true
  · simp only [hf, if_true] at h
    cases hsc : io.scanned with
    | none =>
      simp only [hsc, Option.some.injEq] at h
      subst h
      exact ⟨rfl, rfl, rfl, Or.inl ⟨rfl, rfl⟩⟩
    | some v =>
      simp only [hsc, Option.some.injEq] at h
      subst h
      exact ⟨rfl, rfl, rfl, Or.inr rfl⟩
  · simp [hf] at h

/-- The loop body of `restartProgram` leaves the slots of the record alone. -/
theorem restart_record_cp_array (io : launch_io) (p q : process_info)
    (h : restart_record io p = some q) : q.cp_array = p.cp_array := by
  unfold restart_record at h
  split_ifs at h with h1 h2
  · cases h; rfl
  · exact (launch_success_spec io p q h).2.1
  · cases h; rfl

/-- The loop body of `executeProgram` leaves the slots of the record alone. -/
theorem execute_record_cp_array (io : launch_io) (p q : process_info)
    (h : execute_record io p = some q) : q.cp_array = p.cp_array := by
  unfold execute_record at h
  split_ifs at h with h1
  · cases h; rfl
  · exact (launch_success_spec io p q h).2.1

/-! ## Lemmas on reachable arrays -/

theorem Reachable.mono {R R1 : process_info → List Char → Prop} {L L1 : launch_io → Prop}
    (hR : ∀ p line, R p line → R1 p line) (hL : ∀ io, L io → L1 io) {s : p_info_array}
    (h : Reachable R L s) : Reachable R1 L1 s := by
  induction h with
  | init => exact Reachable.init
  | spawn s s1 fd io watch wd wd1 _ hio hex ih =>
    exact Reachable.spawn s s1 fd io watch wd wd1 ih (fun i => hL _ (hio i)) hex
  | record s s1 i line _ hrec hin ih =>
    exact Reachable.record s s1 i line ih (hR _ _ hrec) hin
  | tick s e result _ ih => exact Reachable.tick s e result ih
  | restart s s1 io _ hio hre ih =>
    exact Reachable.restart s s1 io ih (fun i => hL _ (hio i)) hre

/-- Iterations of `count_down` lead from reachable arrays to reachable arrays. -/
theorem Reachable.ticks {R : process_info → List Char → Prop} {L : launch_io → Prop}
    (result : Nat → Fin RTI_federate_nodes → Fin max_cp_num → Int) {s : p_info_array}
    (h : Reachable R L s) : ∀ n, Reachable R L (count_down_ticks result n s).1 := by
  intro n
  induction n with
  | zero => exact h
  | succ n ih => exact Reachable.tick _ 1 (result n) ih

theorem executeProgram_launch_all :
    executeProgram 3 launch_all watch_all p_info_write (fun _ => 0) =
      some (running_array, watch_all) := rfl

theorem ingest_running_cp0 :
    ingest 1 (cp_line 0) running_array = some first_cp_array := rfl

theorem ingest_first_cp1 :
    ingest 1 (cp_line 1) first_cp_array = some counting_array := rfl

/-- The running array is reachable when the environment `launch_all` is allowed. -/
theorem reachable_running {R : process_info → List Char → Prop} {L : launch_io → Prop}
    (hL : ∀ i, L (launch_all i)) : Reachable R L running_array :=
  Reachable.spawn p_info_write running_array 3 launch_all watch_all (fun _ => 0) watch_all
    Reachable.init hL executeProgram_launch_all

/-- The counting array is reachable by records that arrive in sequence order. -/
theorem reachable_counting {L : launch_io → Prop} (hL : ∀ i, L (launch_all i)) :
    Reachable in_order_record L counting_array := by
  have hr1 : in_order_record (running_array 1) (cp_line 0) := ⟨0, rfl, by decide⟩
  have hr2 : in_order_record (first_cp_array 1) (cp_line 1) := ⟨1, rfl, by decide⟩
  exact Reachable.record first_cp_array counting_array 1 (cp_line 1)
    (Reachable.record running_array first_cp_array 1 (cp_line 0) (reachable_running hL) hr1
      ingest_running_cp0)
    hr2 ingest_first_cp1

/-! ## Lemmas for the invariants -/

theorem check_do_of_clear (a : Fin max_cp_num → cp_info) (m j : Fin max_cp_num)
    (h : (clear_check_do a m j).check_do = true) : j ≠ m ∧ (a j).check_do = true := by
  by_cases hjm : j = m
  · subst hjm; simp [clear_check_do_same] at h
  · rw [clear_check_do_other _ _ _ hjm] at h; exact ⟨hjm, h⟩

theorem check_do_of_arm (a : Fin max_cp_num → cp_info) (d : Fin 10 → Int)
    (k j : Fin max_cp_num) (h : (arm_slot a d k j).check_do = true) :
    j = k ∨ (a j).check_do = true := by
  by_cases hjk : j = k
  · exact Or.inl hjk
  · rw [arm_slot_other _ _ _ _ hjk] at h; exact Or.inr h

theorem p_info_write_idle (i : Fin RTI_federate_nodes) (j : Fin max_cp_num) :
    ((p_info_write i).cp_array j).check_do = false := by
  revert i j; decide

theorem count_down_check_do (e : Nat) (result : Fin RTI_federate_nodes → Fin max_cp_num → Int)
    (s : p_info_array) (i : Fin RTI_federate_nodes) (j : Fin max_cp_num) :
    (((count_down e result s).1 i).cp_array j).check_do = ((s i).cp_array j).check_do := by
  unfold count_down
  rw [count_down_pass_peer, count_down_peer_eq, count_down_slots_check_do]

theorem count_down_pid (e : Nat) (result : Fin RTI_federate_nodes → Fin max_cp_num → Int)
    (s : p_info_array) (i : Fin RTI_federate_nodes) :
    ((count_down e result s).1 i).pid = (s i).pid := by
  unfold count_down
  rw [count_down_pass_peer, count_down_peer_eq, count_down_slots_pid]

theorem cp_line_injective (a b : Fin max_cp_num) (h : cp_line a = cp_line b) : a = b := by
  revert a b; decide

theorem in_order_record_in_turn (p : process_info) (line : List Char)
    (h : in_order_record p line) : record_in_turn p line := by
  obtain ⟨k, hk, hord⟩ := h
  refine ⟨k, hk, ?_⟩
  by_cases he : (p.cp_array k).end_cp = true
  · exact Or.inl he
  · right
    intro j hj
    rcases hord j hj with h1 | ⟨h2, h3 | h3⟩
    · exact Or.inl h1
    · exact absurd h3 he
    · exact Or.inr ⟨h3, h2⟩

theorem in_order_record_any (p : process_info) (line : List Char)
    (h : in_order_record p line) : any_cp_record p line := by
  obtain ⟨k, hk, _⟩ := h
  exact ⟨k, hk⟩

/-- A record that does not arm a second slot keeps at most one slot counting. -/
theorem watch_cp_write_line_in_turn (p q : process_info) (line : List Char)
    (hrec : record_in_turn p line) (h : watch_cp_write_line line p = some q)
    (hp : at_most_one_active p) : at_most_one_active q := by
  obtain ⟨k, rfl, hord⟩ := hrec
  rw [watch_cp_write_line_cp_line, time_count_update_eq _ k (atoi_digit k)] at h
  simp only at h
  by_cases he : (p.cp_array k).end_cp = true
  · by_cases h0 : 0 < k.val
    · simp [he, h0] at h
      subst h
      intro j1 j2 h1 h2
      exact hp j1 j2 (check_do_of_clear _ _ _ h1).2 (check_do_of_clear _ _ _ h2).2
    · simp [he, h0] at h
  · have hord2 : ∀ j, (p.cp_array j).check_do = true →
        j = k ∨ ((p.cp_array k).start_cp = false ∧ j.val + 1 = k.val) := by
      rcases hord with h1 | h1
      · exact absurd h1 he
      · exact h1
    have hall : ∀ j, (q.cp_array j).check_do = true → j = k := by
      by_cases hs : (p.cp_array k).start_cp = true
      · simp [he, hs] at h
        subst h
        intro j hj
        rcases check_do_of_arm _ _ _ _ hj with h1 | h1
        · exact h1
        · rcases hord2 j h1 with h2 | ⟨h3, _⟩
          · exact h2
          · rw [hs] at h3; exact absurd h3 (by decide)
      · by_cases h0 : 0 < k.val
        · simp [he, hs, h0] at h
          subst h
          intro j hj
          obtain ⟨hjm, hj2⟩ := check_do_of_clear _ _ _ hj
          rcases check_do_of_arm _ _ _ _ hj2 with h1 | h1
          · exact h1
          · rcases hord2 j h1 with h2 | ⟨_, h3⟩
            · exact h2
            · exact absurd (Fin.ext (by simp; omega)) hjm
        · simp [he, hs, h0] at h
    intro j1 j2 h1 h2
    rw [hall j1 h1, hall j2 h2]

/-- A CP record that arms its slot while another slot, not the one it disarms,
counts leaves both slots counting. -/
theorem watch_cp_write_line_out_of_turn (p q : process_info) (k : Fin max_cp_num)
    (hrec : ¬ record_in_turn p (cp_line k)) (h : watch_cp_write_line (cp_line k) p = some q) :
    ∃ j, j ≠ k ∧ (q.cp_array j).check_do = true ∧ (q.cp_array k).check_do = true := by
  have he : (p.cp_array k).end_cp = false := by
    cases hc : (p.cp_array k).end_cp with
    | false => rfl
    | true => exact absurd ⟨k, rfl, Or.inl hc⟩ hrec
  have hex : ∃ j, (p.cp_array j).check_do = true ∧ j ≠ k ∧
      ¬ ((p.cp_array k).start_cp = false ∧ j.val + 1 = k.val) := by
    by_contra hno
    apply hrec
    refine ⟨k, rfl, Or.inr ?_⟩
    intro j hj
    by_contra hcon
    apply hno
    refine ⟨j, hj, fun hjk => hcon (Or.inl hjk), fun hpl => hcon (Or.inr hpl)⟩
  obtain ⟨j, hj, hjk, hnp⟩ := hex
  rw [watch_cp_write_line_cp_line, time_count_update_eq _ k (atoi_digit k)] at h
  simp only at h
  by_cases hs : (p.cp_array k).start_cp = true
  · simp [he, hs] at h
    subst h
    refine ⟨j, hjk, ?_, ?_⟩
    · simp only [arm_slot_other _ _ _ _ hjk]; exact hj
    · simp [arm_slot_same]
  · by_cases h0 : 0 < k.val
    · simp [he, hs, h0] at h
      subst h
      have hsf : (p.cp_array k).start_cp = false := by
        cases hc : (p.cp_array k).start_cp with
        | false => rfl
        | true => exact absurd hc hs
      have hjm : j ≠ (⟨k.val - 1, by omega⟩ : Fin max_cp_num) := by
        intro hjm
        apply hnp
        refine ⟨hsf, ?_⟩
        have := congrArg Fin.val hjm
        simp at this
        omega
      have hkm : k ≠ (⟨k.val - 1, by omega⟩ : Fin max_cp_num) := by
        intro hkm
        have := congrArg Fin.val hkm
        simp at this
        omega
      refine ⟨j, hjk, ?_, ?_⟩
      · simp only [clear_check_do_other _ _ _ hjm, arm_slot_other _ _ _ _ hjk]; exact hj
      · simp [clear_check_do_other _ _ _ hkm, arm_slot_same]
    · simp [he, hs, h0] at h

theorem count_down_flags (e : Nat) (result : Fin RTI_federate_nodes → Fin max_cp_num → Int)
    (s : p_info_array) (i : Fin RTI_federate_nodes) (j : Fin max_cp_num) :
    (((count_down e result s).1 i).cp_array j).start_cp = ((s i).cp_array j).start_cp ∧
    (((count_down e result s).1 i).cp_array j).end_cp = ((s i).cp_array j).end_cp := by
  unfold count_down
  rw [count_down_pass_peer, count_down_peer_eq]
  exact count_down_slots_flags _ _ _ _

theorem count_down_ticks_flags (result : Nat → Fin RTI_federate_nodes → Fin max_cp_num → Int)
    (s : p_info_array) (i : Fin RTI_federate_nodes) (j : Fin max_cp_num) :
    ∀ n, (((count_down_ticks result n s).1 i).cp_array j).start_cp = ((s i).cp_array j).start_cp ∧
      (((count_down_ticks result n s).1 i).cp_array j).end_cp = ((s i).cp_array j).end_cp := by
  intro n
  induction n with
  | zero => exact ⟨rfl, rfl⟩
  | succ n ih =>
    have h := count_down_flags 1 (result n) (count_down_ticks result n s).1 i j
    exact ⟨h.1.trans ih.1, h.2.trans ih.2⟩

theorem count_down_ticks_pid (result : Nat → Fin RTI_federate_nodes → Fin max_cp_num → Int)
    (s : p_info_array) (i : Fin RTI_federate_nodes) :
    ∀ n, ((count_down_ticks result n s).1 i).pid = (s i).pid := by
  intro n
  induction n with
  | zero => rfl
  | succ n ih =>
    have h := count_down_pid 1 (result n) (count_down_ticks result n s).1 i
    exact h.trans ih

/-! ## Lemmas on the tick that kills -/

/-- When the loop body changes the state of the peer, the slot was counting,
reached zero, and the kill command did not return `-1`. -/
theorem count_down_slot_fired (r : Int) (acc : process_info × List Int) (j : Fin max_cp_num)
    (h : (count_down_slot r acc j).1.p_state ≠ acc.1.p_state) :
    (acc.1.cp_array j).check_do = true ∧ acc.1.p_state = p_state_starting ∧
      int_wrap ((acc.1.cp_array j).timer_count - 1) = 0 ∧ r ≠ -1 ∧
      count_down_slot r acc j =
        ({ dec_slot acc.1 j with p_state := p_state_terminated }, acc.2 ++ [acc.1.pid]) := by
  rw [count_down_slot_eq] at h ⊢
  split_ifs at h ⊢ with h1 h2 h3
  · exact absurd rfl h
  · exact ⟨h1.1, h1.2, h2, h3, rfl⟩
  · exact absurd rfl h
  · exact absurd rfl h

/-- A pass of the inner loop that takes a starting peer to the terminated state
has brought a counting slot to zero, issued the kill command for the pid of the
peer and got a result other than `-1`. -/
theorem count_down_slots_terminated (result : Fin max_cp_num → Int)
    (js : List (Fin max_cp_num)) :
    ∀ acc, acc.1.p_state = p_state_starting →
      (count_down_slots result js acc).1.p_state = p_state_terminated →
      ∃ j, j ∈ js ∧ (((count_down_slots result js acc).1.cp_array j).check_do = true ∧
        ((count_down_slots result js acc).1.cp_array j).timer_count = 0 ∧
        result j ≠ -1 ∧ acc.1.pid ∈ (count_down_slots result js acc).2) := by
  induction js with
  | nil =>
    intro acc hst hterm
    rw [count_down_slots_nil, hst] at hterm
    exact absurd hterm (by decide)
  | cons a js ih =>
    intro acc hst hterm
    rw [count_down_slots_cons] at hterm ⊢
    by_cases hsame : (count_down_slot (result a) acc a).1.p_state = acc.1.p_state
    · obtain ⟨j, hj, h1, h2, h3, h4⟩ := ih _ (hsame.trans hst) hterm
      rw [count_down_slot_pid] at h4
      exact ⟨j, List.mem_cons_of_mem _ hj, h1, h2, h3, h4⟩
    · obtain ⟨hc, _, hz, hr, heq⟩ := count_down_slot_fired _ _ _ hsame
      have hns : (count_down_slot (result a) acc a).1.p_state ≠ p_state_starting := by
        rw [heq]; simp
      rw [count_down_slots_not_starting result js _ hns, heq]
      refine ⟨a, List.mem_cons_self _ _, ?_, ?_, hr, by simp⟩
      · simp only [dec_slot_check_do]; exact hc
      · simp only [dec_slot_timer]; exact hz

/-! ## Lemmas on the pid and the state of a peer -/

theorem time_count_update_keeps (p q : process_info) (h : time_count_update p = some q) :
    q.pid = p.pid ∧ q.p_state = p.p_state := by
  unfold time_count_update at h
  simp only at h
  split_ifs at h <;> (cases h; exact ⟨rfl, rfl⟩)

theorem watch_cp_write_line_keeps (line : List Char) (p q : process_info)
    (h : watch_cp_write_line line p = some q) : q.pid = p.pid ∧ q.p_state = p.p_state := by
  unfold watch_cp_write_line at h
  cases hs : sscanf_cp line with
  | none =>
    simp only [hs] at h
    exact time_count_update_keeps _ _ h
  | some tok =>
    simp only [hs] at h
    exact time_count_update_keeps { p with cp_num := tok } q h

theorem count_down_slots_state (result : Fin max_cp_num → Int) (js : List (Fin max_cp_num)) :
    ∀ acc, (count_down_slots result js acc).1.p_state = acc.1.p_state ∨
      (count_down_slots result js acc).1.p_state = p_state_terminated := by
  induction js with
  | nil => intro acc; exact Or.inl rfl
  | cons a js ih =>
    intro acc
    rw [count_down_slots_cons]
    rcases ih (count_down_slot (result a) acc a) with h | h
    · rcases count_down_slot_state (result a) acc a with h1 | h1
      · exact Or.inl (h.trans h1)
      · exact Or.inr (h.trans h1.2)
    · exact Or.inr h

theorem count_down_state (e : Nat) (result : Fin RTI_federate_nodes → Fin max_cp_num → Int)
    (s : p_info_array) (i : Fin RTI_federate_nodes) :
    ((count_down e result s).1 i).p_state = (s i).p_state ∨
      ((count_down e result s).1 i).p_state = p_state_terminated := by
  unfold count_down
  rw [count_down_pass_peer, count_down_peer_eq]
  exact count_down_slots_state _ _ _

/-- The pid of the record after a successful launch. -/
theorem launch_success_pid_eq (io : launch_io) (p q : process_info)
    (h : launch_success io p = some q) : q.pid = io.scanned.getD p.pid := by
  rcases (launch_success_spec io p q h).2.2.2 with ⟨h1, h2⟩ | h1
  · rw [h1, h2]; rfl
  · rw [h1]; rfl


/-! ## Lemmas on the decrement made by one pass -/

theorem count_down_slots_timer_notin (result : Fin max_cp_num → Int)
    (js : List (Fin max_cp_num)) (j : Fin max_cp_num) (hj : j ∉ js) :
    ∀ acc, ((count_down_slots result js acc).1.cp_array j).timer_count =
      (acc.1.cp_array j).timer_count := by
  induction js with
  | nil => intro acc; rfl
  | cons a js ih =>
    intro acc
    have hja : j ≠ a := fun h => hj (h ▸ List.mem_cons_self _ _)
    have hjs : j ∉ js := fun h => hj (List.mem_cons_of_mem _ h)
    rw [count_down_slots_cons, ih hjs, count_down_slot_timer_other _ _ _ _ hja]

theorem count_down_slot_timer_same (r : Int) (acc : process_info × List Int)
    (j : Fin max_cp_num) (hc : (acc.1.cp_array j).check_do = true)
    (hst : acc.1.p_state = p_state_starting) :
    ((count_down_slot r acc j).1.cp_array j).timer_count =
      int_wrap ((acc.1.cp_array j).timer_count - 1) := by
  rw [count_down_slot_eq]
  simp only [hc, hst, and_self, if_true]
  split_ifs <;> simp [dec_slot]

/-- In one pass over distinct slots of a starting peer, a counting slot loses
exactly one unit, unless the peer was terminated earlier in the pass, in which
case the slot is left as it was. -/
theorem count_down_slots_timer (result : Fin max_cp_num → Int)
    (js : List (Fin max_cp_num)) (hnd : js.Nodup) :
    ∀ acc, acc.1.p_state = p_state_starting →
      ∀ j, j ∈ js → (acc.1.cp_array j).check_do = true →
        ((count_down_slots result js acc).1.cp_array j).timer_count =
            int_wrap ((acc.1.cp_array j).timer_count - 1) ∨
          (((count_down_slots result js acc).1.cp_array j).timer_count =
              (acc.1.cp_array j).timer_count ∧
            (count_down_slots result js acc).1.p_state = p_state_terminated) := by
  induction js with
  | nil => intro acc _ j hj; exact absurd hj (List.not_mem_nil _)
  | cons a js ih =>
    intro acc hst j hj hc
    have hal : a ∉ js := (List.nodup_cons.mp hnd).1
    rw [count_down_slots_cons]
    by_cases hsame : (count_down_slot (result a) acc a).1.p_state = acc.1.p_state
    · by_cases hja : j = a
      · subst hja
        left
        rw [count_down_slots_timer_notin result js j hal, count_down_slot_timer_same _ _ _ hc hst]
      · have hjs : j ∈ js := by
          rcases List.mem_cons.mp hj with h | h
          · exact absurd h hja
          · exact h
        have hc2 : ((count_down_slot (result a) acc a).1.cp_array j).check_do = true := by
          rw [count_down_slot_check_do]; exact hc
        have := ih (List.nodup_cons.mp hnd).2 _ (hsame.trans hst) j hjs hc2
        rw [count_down_slot_timer_other _ _ _ _ hja] at this
        exact this
    · obtain ⟨_, _, _, _, heq⟩ := count_down_slot_fired _ _ _ hsame
      have hns : (count_down_slot (result a) acc a).1.p_state ≠ p_state_starting := by
        rw [heq]; simp
      rw [count_down_slots_not_starting result js _ hns]
      by_cases hja : j = a
      · subst hja
        left
        exact count_down_slot_timer_same _ _ _ hc hst
      · right
        refine ⟨count_down_slot_timer_other _ _ _ _ hja, ?_⟩
        rw [heq]

/-- A pass over distinct slots none of which counts at one unit issues no kill
command and leaves the state of the peer as it was. -/
theorem count_down_slots_quiet (result : Fin max_cp_num → Int)
    (js : List (Fin max_cp_num)) (hnd : js.Nodup) :
    ∀ acc, (∀ j, j ∈ js → (acc.1.cp_array j).check_do = true →
        int_wrap ((acc.1.cp_array j).timer_count - 1) ≠ 0) →
      (count_down_slots result js acc).2 = acc.2 ∧
      (count_down_slots result js acc).1.p_state = acc.1.p_state := by
  induction js with
  | nil => intro acc _; exact ⟨rfl, rfl⟩
  | cons a js ih =>
    intro acc hq
    have hal : a ∉ js := (List.nodup_cons.mp hnd).1
    rw [count_down_slots_cons]
    have hstep : (count_down_slot (result a) acc a).2 = acc.2 ∧
        (count_down_slot (result a) acc a).1.p_state = acc.1.p_state := by
      rw [count_down_slot_eq]
      by_cases hc : (acc.1.cp_array a).check_do = true ∧ acc.1.p_state = p_state_starting
      · have := hq a (List.mem_cons_self _ _) hc.1
        simp [hc, this, dec_slot]
      · simp [hc]
    have hq2 : ∀ j, j ∈ js → ((count_down_slot (result a) acc a).1.cp_array j).check_do = true →
        int_wrap (((count_down_slot (result a) acc a).1.cp_array j).timer_count - 1) ≠ 0 := by
      intro j hj hc
      have hja : j ≠ a := fun h => hal (h ▸ hj)
      rw [count_down_slot_check_do] at hc
      rw [count_down_slot_timer_other _ _ _ _ hja]
      exact hq j (List.mem_cons_of_mem _ hj) hc
    obtain ⟨h1, h2⟩ := ih (List.nodup_cons.mp hnd).2 _ hq2
    exact ⟨h1.trans hstep.1, h2.trans hstep.2⟩

/-- When every launch that succeeds for a terminated peer finds its message
file, `restartProgram` returns. -/
theorem restartProgram_fold_total (io : Fin RTI_federate_nodes → launch_io)
    (l : List (Fin RTI_federate_nodes)) (hnd : l.Nodup) :
    ∀ s, (∀ i, i ∈ l → (s i).p_state = p_state_terminated → (io i).result ≠ -1 →
        (io i).fopen_ok = true) →
      ∃ s1, l.foldlM (fun acc i => restartProgram_peer (io i) acc i) s = some s1 := by
  induction l with
  | nil => intro s _; exact ⟨s, rfl⟩
  | cons a l ih =>
    intro s hopen
    have hal : a ∉ l := (List.nodup_cons.mp hnd).1
    have hstep : ∃ s2, restartProgram_peer (io a) s a = some s2 := by
      unfold restartProgram_peer
      by_cases hst : (s a).p_state = p_state_terminated
      · by_cases hr : (io a).result = -1
        · exact ⟨s, by simp [hst, hr]⟩
        · have hf := hopen a (List.mem_cons_self _ _) hst hr
          cases hsc : (io a).scanned with
          | none => simp [hst, hr, launch_success, hf, hsc]
          | some v => simp [hst, hr, launch_success, hf, hsc]
      · exact ⟨s, by simp [hst]⟩
    obtain ⟨s2, h2⟩ := hstep
    have hother := (restartProgram_peer_spec (io a) s s2 a h2).2
    have hopen2 : ∀ i, i ∈ l → (s2 i).p_state = p_state_terminated → (io i).result ≠ -1 →
        (io i).fopen_ok = true := by
      intro i hi hst hr
      have hia : i ≠ a := fun h => hal (h ▸ hi)
      rw [hother i hia] at hst
      exact hopen i (List.mem_cons_of_mem _ hi) hst hr
    obtain ⟨s1, h1⟩ := ih (List.nodup_cons.mp hnd).2 s2 hopen2
    exact ⟨s1, by rw [List.foldlM_cons, h2]; exact h1⟩

/-! ## Lemmas on a kill command that fails -/

theorem count_down_slot_log_mono (r : Int) (acc : process_info × List Int)
    (j : Fin max_cp_num) (x : Int) (hx : x ∈ acc.2) : x ∈ (count_down_slot r acc j).2 := by
  rw [count_down_slot_eq]
  split_ifs <;> simp [hx]

theorem count_down_slots_log_mono (result : Fin max_cp_num → Int)
    (js : List (Fin max_cp_num)) (x : Int) :
    ∀ acc, x ∈ acc.2 → x ∈ (count_down_slots result js acc).2 := by
  induction js with
  | nil => intro acc hx; exact hx
  | cons a js ih =>
    intro acc hx
    rw [count_down_slots_cons]
    exact ih _ (count_down_slot_log_mono _ _ _ _ hx)

theorem count_down_slot_fail_state (acc : process_info × List Int) (j : Fin max_cp_num) :
    (count_down_slot (-1) acc j).1.p_state = acc.1.p_state := by
  rw [count_down_slot_eq]
  split_ifs <;> first | rfl | (exfalso; omega)

theorem count_down_slots_fail_state (result : Fin max_cp_num → Int)
    (hfail : ∀ j, result j = -1) (js : List (Fin max_cp_num)) :
    ∀ acc, (count_down_slots result js acc).1.p_state = acc.1.p_state := by
  induction js with
  | nil => intro acc; rfl
  | cons a js ih =>
    intro acc
    rw [count_down_slots_cons, ih, hfail a, count_down_slot_fail_state]

/-- In a pass in which every kill command fails, a counting slot of a starting
peer that stands at one unit has the kill command issued for the pid of the peer. -/
theorem count_down_slots_fail_log (result : Fin max_cp_num → Int)
    (hfail : ∀ j, result j = -1) (k : Fin max_cp_num)
    (js : List (Fin max_cp_num)) (hnd : js.Nodup) :
    ∀ acc, acc.1.p_state = p_state_starting → k ∈ js →
      (acc.1.cp_array k).check_do = true →
      int_wrap ((acc.1.cp_array k).timer_count - 1) = 0 →
      acc.1.pid ∈ (count_down_slots result js acc).2 := by
  induction js with
  | nil => intro acc _ hk; exact absurd hk (List.not_mem_nil _)
  | cons a js ih =>
    intro acc hst hk hc hz
    rw [count_down_slots_cons]
    by_cases hka : k = a
    · subst hka
      apply count_down_slots_log_mono
      rw [count_down_slot_eq]
      simp [hc, hst, hz, hfail k]
    · have hkjs : k ∈ js := by
        rcases List.mem_cons.mp hk with h | h
        · exact absurd h hka
        · exact h
      have hst2 : (count_down_slot (result a) acc a).1.p_state = p_state_starting := by
        rw [hfail a, count_down_slot_fail_state]; exact hst
      have := ih (List.nodup_cons.mp hnd).2 (count_down_slot (result a) acc a) hst2 hkjs
        (by rw [count_down_slot_check_do]; exact hc)
        (by rw [count_down_slot_timer_other _ _ _ _ hka]; exact hz)
      rw [count_down_slot_pid] at this
      exact this

/-! ## Lemmas on runs of records and ticks -/

theorem run_events_nil (acc : p_info_array × List (Fin RTI_federate_nodes × Int)) :
    run_events [] acc = some acc := rfl

theorem run_events_cons (ev : supervisor_event) (evs : List supervisor_event)
    (acc : p_info_array × List (Fin RTI_federate_nodes × Int)) :
    run_events (ev :: evs) acc = (run_event ev acc).bind (run_events evs) := by
  unfold run_events
  rw [List.foldlM_cons]
  rfl

theorem run_events_append (evs1 evs2 : List supervisor_event)
    (acc : p_info_array × List (Fin RTI_federate_nodes × Int)) :
    run_events (evs1 ++ evs2) acc = (run_events evs1 acc).bind (run_events evs2) := by
  unfold run_events
  rw [List.foldlM_append]
  rfl

theorem cp_record_eq (k : Nat) (h : k < max_cp_num) : cp_record k = cp_line ⟨k, h⟩ := rfl

theorem arm_slot_flags (a : Fin max_cp_num → cp_info) (d : Fin 10 → Int)
    (k j : Fin max_cp_num) :
    (arm_slot a d k j).start_cp = (a j).start_cp ∧ (arm_slot a d k j).end_cp = (a j).end_cp := by
  by_cases hjk : j = k
  · subst hjk; simp [arm_slot_same]
  · simp [arm_slot_other _ _ _ _ hjk]

theorem clear_check_do_flags (a : Fin max_cp_num → cp_info) (m j : Fin max_cp_num) :
    (clear_check_do a m j).start_cp = (a j).start_cp ∧
      (clear_check_do a m j).end_cp = (a j).end_cp := by
  by_cases hjm : j = m
  · subst hjm; simp [clear_check_do_same]
  · simp [clear_check_do_other _ _ _ hjm]

theorem dec_slot_flags (p : process_info) (k j : Fin max_cp_num) :
    ((dec_slot p k).cp_array j).start_cp = (p.cp_array j).start_cp ∧
      ((dec_slot p k).cp_array j).end_cp = (p.cp_array j).end_cp := by
  by_cases hjk : j = k
  · subst hjk; simp [dec_slot]
  · simp [dec_slot, Function.update_noteq hjk]

/-- The line `cp: k` for a slot with `start_cp` and without `end_cp`. -/
theorem watch_cp_write_line_start_eq (p : process_info) (k : Fin max_cp_num)
    (hs : (p.cp_array k).start_cp = true) (he : (p.cp_array k).end_cp = false) :
    watch_cp_write_line (cp_line k) p =
      some { p with cp_num := [Char.ofNat (48 + k.val)],
                    cp_array := arm_slot p.cp_array p.deadline k } := by
  rw [watch_cp_write_line_cp_line, time_count_update_eq _ k (atoi_digit k)]
  simp [he, hs]

/-- The line `cp: k` for a slot `k > 0` with neither `start_cp` nor `end_cp`. -/
theorem watch_cp_write_line_plain_eq (p : process_info) (k km : Fin max_cp_num)
    (hkm : km.val + 1 = k.val)
    (hs : (p.cp_array k).start_cp = false) (he : (p.cp_array k).end_cp = false) :
    watch_cp_write_line (cp_line k) p =
      some { p with cp_num := [Char.ofNat (48 + k.val)],
                    cp_array := clear_check_do (arm_slot p.cp_array p.deadline k) km } := by
  have h0 : 0 < k.val := by omega
  have hkm2 : (⟨k.val - 1, by omega⟩ : Fin max_cp_num) = km := by
    apply Fin.ext; simp; omega
  rw [watch_cp_write_line_cp_line, time_count_update_eq _ k (atoi_digit k)]
  simp [he, hs, h0, hkm2]

/-- The line `cp: k` for a slot `k > 0` with `end_cp`. -/
theorem watch_cp_write_line_end_eq (p : process_info) (k km : Fin max_cp_num)
    (hkm : km.val + 1 = k.val) (he : (p.cp_array k).end_cp = true) :
    watch_cp_write_line (cp_line k) p =
      some { p with cp_num := [Char.ofNat (48 + k.val)],
                    cp_array := clear_check_do p.cp_array km } := by
  have h0 : 0 < k.val := by omega
  have hkm2 : (⟨k.val - 1, by omega⟩ : Fin max_cp_num) = km := by
    apply Fin.ext; simp; omega
  rw [watch_cp_write_line_cp_line, time_count_update_eq _ k (atoi_digit k)]
  simp [he, h0, hkm2]

/-! ## Lemmas on timely progress -/

/-- A record of a timely run that is not the last one arms its slot and leaves
no other slot counting. -/
theorem timely_line_arms (p : process_info) (k : Fin max_cp_num)
    (he : (p.cp_array k).end_cp = false)
    (hs0 : k.val = 0 → (p.cp_array k).start_cp = true)
    (hs1 : 0 < k.val → (p.cp_array k).start_cp = false)
    (hact : ∀ j : Fin max_cp_num, (p.cp_array j).check_do = true → j.val + 1 = k.val) :
    ∃ q, watch_cp_write_line (cp_line k) p = some q ∧
      q.p_state = p.p_state ∧ q.deadline = p.deadline ∧
      (∀ j, (q.cp_array j).start_cp = (p.cp_array j).start_cp ∧
        (q.cp_array j).end_cp = (p.cp_array j).end_cp) ∧
      (q.cp_array k).check_do = true ∧
      (q.cp_array k).timer_count = p.deadline k ∧
      (∀ j, j ≠ k → (q.cp_array j).check_do = false) := by
  by_cases h0 : k.val = 0
  · refine ⟨_, watch_cp_write_line_start_eq p k (hs0 h0) he, rfl, rfl, ?_, ?_, ?_, ?_⟩
    · intro j; exact arm_slot_flags _ _ _ _
    · simp [arm_slot_same]
    · simp [arm_slot_same]
    · intro j hj
      simp only [arm_slot_other _ _ _ _ hj]
      cases hc : (p.cp_array j).check_do with
      | false => rfl
      | true => have := hact j hc; omega
  · have hpos : 0 < k.val := Nat.pos_of_ne_zero h0
    have hkm : (⟨k.val - 1, by omega⟩ : Fin max_cp_num).val + 1 = k.val := by
      simp; omega
    have hne : k ≠ (⟨k.val - 1, by omega⟩ : Fin max_cp_num) := by
      intro h
      have := congrArg Fin.val h
      simp at this
      omega
    refine ⟨_, watch_cp_write_line_plain_eq p k ⟨k.val - 1, by omega⟩ hkm (hs1 hpos) he,
      rfl, rfl, ?_, ?_, ?_, ?_⟩
    · intro j
      exact ⟨((clear_check_do_flags _ _ _).1).trans (arm_slot_flags _ _ _ _).1,
        ((clear_check_do_flags _ _ _).2).trans (arm_slot_flags _ _ _ _).2⟩
    · simp [clear_check_do_other _ _ _ hne, arm_slot_same]
    · simp [clear_check_do_other _ _ _ hne, arm_slot_same]
    · intro j hj
      by_cases hjm : j = (⟨k.val - 1, by omega⟩ : Fin max_cp_num)
      · rw [hjm]; simp [clear_check_do_same]
      · simp only [clear_check_do_other _ _ _ hjm, arm_slot_other _ _ _ _ hj]
        cases hc : (p.cp_array j).check_do with
        | false => rfl
        | true =>
          have := hact j hc
          exact absurd (Fin.ext (by simp; omega)) hjm

/-- The last record of a timely run disarms the slot before it and leaves no
slot counting. -/
theorem timely_line_end (p : process_info) (k : Fin max_cp_num) (h0 : 0 < k.val)
    (he : (p.cp_array k).end_cp = true)
    (hact : ∀ j : Fin max_cp_num, (p.cp_array j).check_do = true → j.val + 1 = k.val) :
    ∃ q, watch_cp_write_line (cp_line k) p = some q ∧
      q.p_state = p.p_state ∧ (∀ j, (q.cp_array j).check_do = false) := by
  have hkm : (⟨k.val - 1, by omega⟩ : Fin max_cp_num).val + 1 = k.val := by
    simp; omega
  refine ⟨_, watch_cp_write_line_end_eq p k ⟨k.val - 1, by omega⟩ hkm he, rfl, ?_⟩
  intro j
  by_cases hjm : j = (⟨k.val - 1, by omega⟩ : Fin max_cp_num)
  · rw [hjm]; simp [clear_check_do_same]
  · simp only [clear_check_do_other _ _ _ hjm]
    cases hc : (p.cp_array j).check_do with
    | false => rfl
    | true =>
      have := hact j hc
      exact absurd (Fin.ext (by simp; omega)) hjm

/-- Ticks fewer than the count of the only counting slot `k` of the starting
peer `i` keep the run going: the peer stays starting with its flags and
budgets, slot `k` still counts, and no kill command is issued for the peer. -/
theorem run_ticks_single (p0 : process_info) (i : Fin RTI_federate_nodes)
    (k : Fin max_cp_num) :
    ∀ (g : List (Fin RTI_federate_nodes → Fin max_cp_num → Int))
      (acc : p_info_array × List (Fin RTI_federate_nodes × Int)) (t : Nat),
      (acc.1 i).p_state = p_state_starting →
      (∀ j, ((acc.1 i).cp_array j).start_cp = (p0.cp_array j).start_cp ∧
        ((acc.1 i).cp_array j).end_cp = (p0.cp_array j).end_cp) →
      (acc.1 i).deadline = p0.deadline →
      ((acc.1 i).cp_array k).check_do = true →
      (∀ j, j ≠ k → ((acc.1 i).cp_array j).check_do = false) →
      ((acc.1 i).cp_array k).timer_count = (t : Int) → t ≤ 2147483647 → g.length < t →
      (∀ pid, (i, pid) ∉ acc.2) →
      ∃ acc1, run_events (g.map (fun result => supervisor_event.tick 1 result)) acc = some acc1 ∧
        timely_inv p0 i (k.val + 1) acc1 := by
  intro g
  induction g with
  | nil =>
    intro acc t hst hfl hdl _ hothers _ _ _ hlog
    refine ⟨acc, rfl, hst, hfl, hdl, ?_, hlog⟩
    intro j hj
    by_cases hjk : j = k
    · rw [hjk]
    · rw [hothers j hjk] at hj; exact absurd hj (by decide)
  | cons r g ih =>
    intro acc t hst hfl hdl hk hothers htc ht hlen hlog
    simp only [List.length_cons] at hlen
    have hw : int_wrap (((acc.1 i).cp_array k).timer_count - 1) = (t : Int) - 1 := by
      rw [htc]; apply int_wrap_of_int_range <;> omega
    have hne : int_wrap (((acc.1 i).cp_array k).timer_count - 1) ≠ 0 := by
      rw [hw]; omega
    have hpeer := count_down_peer_single_no_fire (r i) (acc.1 i) k hst hk hothers hne
    have hs1 : (count_down 1 r acc.1).1 i = dec_slot (acc.1 i) k := by
      unfold count_down
      rw [count_down_pass_peer, hpeer]
    have hl1 : ∀ pid, (i, pid) ∉ acc.2 ++ (count_down 1 r acc.1).2 := by
      intro pid hmem
      rcases List.mem_append.mp hmem with h | h
      · exact hlog pid h
      · unfold count_down at h
        rw [count_down_pass_log, hpeer] at h
        exact absurd h (List.not_mem_nil _)
    have hrec := ih ((count_down 1 r acc.1).1, acc.2 ++ (count_down 1 r acc.1).2) (t - 1)
      (by simp only [hs1]; exact hst)
      (by
        intro j
        simp only [hs1]
        exact ⟨((dec_slot_flags _ _ _).1).trans (hfl j).1,
          ((dec_slot_flags _ _ _).2).trans (hfl j).2⟩)
      (by simp only [hs1]; exact hdl)
      (by simp only [hs1]; rw [dec_slot_check_do]; exact hk)
      (by intro j hj; simp only [hs1]; rw [dec_slot_check_do]; exact hothers j hj)
      (by simp only [hs1]; rw [dec_slot_timer, hw]; omega)
      (by omega) (by omega) hl1
    obtain ⟨acc1, hrun, hinv⟩ := hrec
    refine ⟨acc1, ?_, hinv⟩
    rw [List.map_cons, run_events_cons]
    simp only [run_event, Option.some_bind]
    exact hrun

/-- A timely run from record `k` on: every prefix of the run returns with the
peer starting and no kill command issued for it, and the whole run returns
with no slot of the peer counting. -/
theorem timely_run (p0 : process_info) (i : Fin RTI_federate_nodes) :
    ∀ (gaps : List (List (Fin RTI_federate_nodes → Fin max_cp_num → Int))) (k : Nat)
      (acc : p_info_array × List (Fin RTI_federate_nodes × Int)),
      timely_schedule p0 k gaps → timely_inv p0 i k acc →
      (∀ m, ∃ acc1, run_events ((timely_events i k gaps).take m) acc = some acc1 ∧
        (acc1.1 i).p_state = p_state_starting ∧ ∀ pid, (i, pid) ∉ acc1.2) ∧
      (∃ acc1, run_events (timely_events i k gaps) acc = some acc1 ∧
        ∀ j, ((acc1.1 i).cp_array j).check_do = false) := by
  intro gaps
  induction gaps with
  | nil =>
    intro k acc hsched hinv
    obtain ⟨hk, h0, he⟩ := hsched
    obtain ⟨hst, hfl, _, hact, hlog⟩ := hinv
    have he2 : ((acc.1 i).cp_array ⟨k, hk⟩).end_cp = true := by rw [(hfl _).2]; exact he
    obtain ⟨q, hq, hqst, hqidle⟩ := timely_line_end (acc.1 i) ⟨k, hk⟩ h0 he2 hact
    have hrun : run_events [supervisor_event.record i (cp_record k)] acc =
        some (Function.update acc.1 i q, acc.2) := by
      rw [run_events_cons]
      simp [run_event, ingest, cp_record_eq k hk, hq, run_events_nil]
    refine ⟨?_, ⟨_, hrun, ?_⟩⟩
    · intro m
      cases m with
      | zero => exact ⟨acc, rfl, hst, hlog⟩
      | succ m =>
        refine ⟨(Function.update acc.1 i q, acc.2), ?_, ?_, hlog⟩
        · simp only [timely_events, List.take_succ_cons, List.take_nil]
          exact hrun
        · simp only [Function.update_same]; rw [hqst]; exact hst
    · intro j
      simp only [Function.update_same]
      exact hqidle j
  | cons g gaps ih =>
    intro k acc hsched hinv
    obtain ⟨⟨hk, he, hs0, hs1, hlen, hmax⟩, hrest⟩ := hsched
    obtain ⟨hst, hfl, hdl, hact, hlog⟩ := hinv
    obtain ⟨q, hq, hqst, hqdl, hqfl, hqk, hqtc, hqo⟩ :=
      timely_line_arms (acc.1 i) ⟨k, hk⟩ (by rw [(hfl _).2]; exact he)
        (fun h => by rw [(hfl _).1]; exact hs0 h) (fun h => by rw [(hfl _).1]; exact hs1 h) hact
    have hrec : run_event (supervisor_event.record i (cp_record k)) acc =
        some (Function.update acc.1 i q, acc.2) := by
      simp [run_event, ingest, cp_record_eq k hk, hq]
    obtain ⟨t, ht⟩ : ∃ t : Nat, p0.deadline ⟨k, hk⟩ = (t : Int) :=
      ⟨(p0.deadline ⟨k, hk⟩).toNat, by omega⟩
    have hticks : ∀ g1 : List (Fin RTI_federate_nodes → Fin max_cp_num → Int),
        g1.length ≤ g.length →
        ∃ acc2, run_events (g1.map (fun result => supervisor_event.tick 1 result))
            (Function.update acc.1 i q, acc.2) = some acc2 ∧
          timely_inv p0 i (k + 1) acc2 := by
      intro g1 hg1
      exact run_ticks_single p0 i ⟨k, hk⟩ g1 (Function.update acc.1 i q, acc.2) t
        (by simp only [Function.update_same]; rw [hqst]; exact hst)
        (by
          intro j
          simp only [Function.update_same]
          exact ⟨((hqfl j).1).trans (hfl j).1, ((hqfl j).2).trans (hfl j).2⟩)
        (by simp only [Function.update_same]; rw [hqdl]; exact hdl)
        (by simp only [Function.update_same]; exact hqk)
        (by intro j hj; simp only [Function.update_same]; exact hqo j hj)
        (by simp only [Function.update_same]; rw [hqtc, hdl]; exact ht)
        (by omega) (by omega) hlog
    refine ⟨?_, ?_⟩
    · intro m
      cases m with
      | zero => exact ⟨acc, rfl, hst, hlog⟩
      | succ m =>
        obtain ⟨acc2, hrun2, hinv2⟩ := hticks (g.take m) (by simp)
        obtain ⟨acc3, hrun3, hst3, hlog3⟩ := (ih (k + 1) acc2 hrest hinv2).1 (m - g.length)
        refine ⟨acc3, ?_, hst3, hlog3⟩
        simp only [timely_events, List.take_succ_cons]
        rw [run_events_cons, hrec, Option.some_bind, List.take_append_eq_append_take,
          run_events_append, ← List.map_take, hrun2, Option.some_bind, List.length_map]
        exact hrun3
    · obtain ⟨acc2, hrun2, hinv2⟩ := hticks g (le_refl _)
      obtain ⟨acc3, hrun3, hidle3⟩ := (ih (k + 1) acc2 hrest hinv2).2
      refine ⟨acc3, ?_, hidle3⟩
      simp only [timely_events]
      rw [run_events_cons, hrec, Option.some_bind, run_events_append, hrun2, Option.some_bind]
      exact hrun3

/-- The description of a timely schedule slot by slot gives the schedule. -/
theorem timely_schedule_of_slots (p0 : process_info) :
    ∀ (gaps : List (List (Fin RTI_federate_nodes → Fin max_cp_num → Int))) (k : Nat),
      k + gaps.length < max_cp_num → (gaps = [] → 0 < k) →
      (∀ j : Fin max_cp_num, k ≤ j.val → j.val < k + gaps.length →
        (p0.cp_array j).end_cp = false ∧
        (j.val = 0 → (p0.cp_array j).start_cp = true) ∧
        (0 < j.val → (p0.cp_array j).start_cp = false) ∧
        ((gaps.getD (j.val - k) []).length : Int) < p0.deadline j ∧
        p0.deadline j ≤ 2147483647) →
      (∀ j : Fin max_cp_num, j.val = k + gaps.length → (p0.cp_array j).end_cp = true) →
      timely_schedule p0 k gaps := by
  intro gaps
  induction gaps with
  | nil =>
    intro k hk h0 _ hend
    simp only [List.length_nil, Nat.add_zero] at hk hend
    exact ⟨hk, h0 rfl, hend ⟨k, hk⟩ rfl⟩
  | cons g gaps ih =>
    intro k hk _ hslots hend
    simp only [List.length_cons] at hk hslots hend
    have hkk : k < max_cp_num := by omega
    obtain ⟨h1, h2, h3, h4, h5⟩ := hslots ⟨k, hkk⟩ (le_refl _) (by simp)
    refine ⟨⟨hkk, h1, h2, h3, ?_, h5⟩, ?_⟩
    · simpa using h4
    · apply ih (k + 1) (by omega) (fun _ => by omega)
      · intro j hj1 hj2
        obtain ⟨a1, a2, a3, a4, a5⟩ := hslots j (by omega) (by omega)
        refine ⟨a1, a2, a3, ?_, a5⟩
        have hidx : j.val - k = (j.val - (k + 1)) + 1 := by omega
        rw [hidx, List.getD_cons_succ] at a4
        exact a4
      · intro j hj
        exact hend j (by omega)

/-! ## Lemmas on a restart that parses no pid -/

/-- Iterations of `count_down` lead from reachable arrays to reachable arrays. -/
theorem reachable_when_ticks {R : process_info → List Char → Prop}
    {L : process_info → launch_io → Prop}
    (result : Nat → Fin RTI_federate_nodes → Fin max_cp_num → Int) {s : p_info_array}
    (h : ReachableWhen R L s) : ∀ n, ReachableWhen R L (count_down_ticks result n s).1 := by
  intro n
  induction n with
  | zero => exact h
  | succ n ih => exact ReachableWhen.tick _ 1 (result n) ih

theorem counting_array_pid (i : Fin RTI_federate_nodes) : (counting_array i).pid ≠ 0 := by
  revert i; decide

/-- The array killed after the launch and two records is reachable with pids kept. -/
theorem reachable_killed_run : ReachableWhen any_line pid_kept killed_run_array := by
  have h0 : ReachableWhen any_line pid_kept running_array :=
    ReachableWhen.spawn p_info_write running_array 3 launch_all watch_all (fun _ => 0) watch_all
      ReachableWhen.init (by intro i _; revert i; decide) executeProgram_launch_all
  have h1 : ReachableWhen any_line pid_kept first_cp_array :=
    ReachableWhen.record running_array first_cp_array 1 (cp_line 0) h0 trivial ingest_running_cp0
  have h2 : ReachableWhen any_line pid_kept counting_array :=
    ReachableWhen.record first_cp_array counting_array 1 (cp_line 1) h1 trivial ingest_first_cp1
  exact reachable_when_ticks kill_ok h2 100

theorem restartProgram_killed_run :
    restartProgram launch_no_pid killed_run_array = some restarted_array := by
  obtain ⟨s1, hs1⟩ := restartProgram_fold_total launch_no_pid _ (List.nodup_finRange _)
    killed_run_array (fun i _ _ _ => rfl)
  have h : restartProgram launch_no_pid killed_run_array = some s1 := hs1
  unfold restarted_array
  rw [h]
  rfl

/-- The array restarted without a pid being parsed is reachable with pids kept. -/
theorem reachable_restarted : ReachableWhen any_line pid_kept restarted_array := by
  refine ReachableWhen.restart killed_run_array restarted_array launch_no_pid
    reachable_killed_run ?_ restartProgram_killed_run
  intro i _ _
  have hpid : (killed_run_array i).pid = (counting_array i).pid :=
    count_down_ticks_pid kill_ok counting_array i 100
  have hc : (counting_array i).pid ≠ 0 := counting_array_pid i
  show (launch_no_pid i).scanned.getD (killed_run_array i).pid ≠ 0
  rw [hpid]
  exact hc

theorem restarted_starting : (restarted_array 1).p_state = p_state_starting := by
  have hterm : (killed_run_array 1).p_state = p_state_terminated :=
    (count_down_ticks_at kill_ok counting_array 1 1 99 (by decide) (by decide) (by decide)
      (by decide) (by decide) (by simp [kill_ok])).1
  have hrec := restartProgram_spec launch_no_pid _ _ restartProgram_killed_run 1
  unfold restart_record at hrec
  rw [if_pos hterm, if_neg (by decide)] at hrec
  exact (launch_success_spec _ _ _ hrec).1

/-! ## Claims on the checkpoint state transition -/

/-- C1: for a record index `k` with `0 < k < max_cp_num` whose slot has neither
`start_cp` nor `end_cp` set, `time_count_update` returns, and in the result slot
`k` has `timer_count = deadline[k]` and `check_do = true` while slot `k - 1` has
`check_do = false`, whatever the slots held before. -/
theorem time_count_update_plain_slot (p : process_info) (k km : Fin max_cp_num)
    (hkm : km.val + 1 = k.val) (hnum : atoi p.cp_num = (k.val : Int))
    (hstart : (p.cp_array k).start_cp = false) (hend : (p.cp_array k).end_cp = false) :
    ∃ q, time_count_update p = some q ∧
      (q.cp_array k).timer_count = p.deadline k ∧
      (q.cp_array k).check_do = true ∧
      (q.cp_array km).check_do = false := by
  have h0 : 0 < k.val := by omega
  have hkm2 : (⟨k.val - 1, by omega⟩ : Fin max_cp_num) = km := by
    apply Fin.ext; simp; omega
  have hne : k ≠ km := by
    intro h; rw [h] at hkm; omega
  have hq : time_count_update p =
      some { p with cp_array := clear_check_do (arm_slot p.cp_array p.deadline k) km } := by
    rw [time_count_update_eq p k hnum]
    simp [hend, hstart, dif_pos h0, hkm2]
  refine ⟨_, hq, ?_, ?_, ?_⟩
  · simp [clear_check_do_other _ _ _ hne, arm_slot_same]
  · simp [clear_check_do_other _ _ _ hne, arm_slot_same]
  · simp [clear_check_do_same]

/-- C1 at federate 1 holding the token `1` while slot 0 counts. -/
theorem time_count_update_plain_slot_witness :
    ∃ q, time_count_update peer_after_cp0 = some q ∧
      (q.cp_array 1).timer_count = peer_after_cp0.deadline 1 ∧
      (q.cp_array 1).check_do = true ∧
      (q.cp_array 0).check_do = false :=
  time_count_update_plain_slot peer_after_cp0 1 0 (by decide) (by decide) (by decide) (by decide)

/-- C2: for a record index `k` with `0 < k < max_cp_num` whose slot has `end_cp`
set, `time_count_update` returns, slot `k - 1` has `check_do = false` in the
result, and every slot other than `k - 1`, slot `k` among them, is exactly what
it was; the `timer_count` of slot `k - 1` is kept too. -/
theorem time_count_update_end_slot (p : process_info) (k km : Fin max_cp_num)
    (hkm : km.val + 1 = k.val) (hnum : atoi p.cp_num = (k.val : Int))
    (hend : (p.cp_array k).end_cp = true) :
    ∃ q, time_count_update p = some q ∧
      (q.cp_array km).check_do = false ∧
      (q.cp_array k).check_do = (p.cp_array k).check_do ∧
      (q.cp_array k).timer_count = (p.cp_array k).timer_count ∧
      (∀ j, j ≠ km → q.cp_array j = p.cp_array j) ∧
      (q.cp_array km).timer_count = (p.cp_array km).timer_count := by
  have h0 : 0 < k.val := by omega
  have hkm2 : (⟨k.val - 1, by omega⟩ : Fin max_cp_num) = km := by
    apply Fin.ext; simp; omega
  have hne : k ≠ km := by
    intro h; rw [h] at hkm; omega
  have hq : time_count_update p = some { p with cp_array := clear_check_do p.cp_array km } := by
    rw [time_count_update_eq p k hnum]
    simp [hend, dif_pos h0, hkm2]
  refine ⟨_, hq, ?_, ?_, ?_, ?_, ?_⟩
  · simp [clear_check_do_same]
  · simp [clear_check_do_other _ _ _ hne]
  · simp [clear_check_do_other _ _ _ hne]
  · intro j hj
    simp [clear_check_do_other _ _ _ hj]
  · simp [clear_check_do_same]

/-- C2 at federate 1 holding the token `3` while slot 2 counts. -/
theorem time_count_update_end_slot_witness :
    ∃ q, time_count_update peer_before_end = some q ∧
      (q.cp_array 2).check_do = false ∧
      (q.cp_array 3).check_do = (peer_before_end.cp_array 3).check_do ∧
      (q.cp_array 3).timer_count = (peer_before_end.cp_array 3).timer_count ∧
      (∀ j, j ≠ 2 → q.cp_array j = peer_before_end.cp_array j) ∧
      (q.cp_array 2).timer_count = (peer_before_end.cp_array 2).timer_count :=
  time_count_update_end_slot peer_before_end 3 2 (by decide) (by decide) (by decide)

/-! ## Claims on deadlines -/

/-- C3 (deadline breach): for a starting peer `i` with no counting slot, a slot
`k` with `start_cp` set (and `end_cp` not set) and a budget `d = deadline[k]`
with `1 ≤ d` in the range of `int`, ingesting the line `cp: k` returns, and
running `d` iterations of `count_down` whose kill commands for peer `i` succeed
ends with the peer terminated and the kill command issued for its pid; before
the last of these iterations the peer is starting and no kill command has been
issued for it. -/
theorem deadline_breach (result : Nat → Fin RTI_federate_nodes → Fin max_cp_num → Int)
    (s : p_info_array) (i : Fin RTI_federate_nodes) (k : Fin max_cp_num)
    (hst : (s i).p_state = p_state_starting)
    (hidle : ∀ j, ((s i).cp_array j).check_do = false)
    (hstart : ((s i).cp_array k).start_cp = true)
    (hend : ((s i).cp_array k).end_cp = false)
    (hd1 : 1 ≤ (s i).deadline k) (hd2 : (s i).deadline k ≤ 2147483647)
    (hres : ∀ t j, result t i j ≠ -1) :
    ∃ s1, ingest i (cp_line k) s = some s1 ∧
      (∀ n, n < ((s i).deadline k).toNat →
        ((count_down_ticks result n s1).1 i).p_state = p_state_starting ∧
        ∀ pid, (i, pid) ∉ (count_down_ticks result n s1).2) ∧
      ((count_down_ticks result ((s i).deadline k).toNat s1).1 i).p_state = p_state_terminated ∧
      (i, (s i).pid) ∈ (count_down_ticks result ((s i).deadline k).toNat s1).2 := by
  obtain ⟨q, hq, hqst, hqpid, _, hqk, hqtc, hqo⟩ :=
    watch_cp_write_line_arms (s i) k hend (Or.inl hstart)
  obtain ⟨t, ht⟩ : ∃ t : Nat, (s i).deadline k = ((t + 1 : Nat) : Int) :=
    ⟨((s i).deadline k).toNat - 1, by omega⟩
  have htn : ((s i).deadline k).toNat = t + 1 := by omega
  refine ⟨Function.update s i q, by simp [ingest, hq], ?_⟩
  have e : (Function.update s i q) i = q := by simp
  have hst1 : ((Function.update s i q) i).p_state = p_state_starting := by rw [e, hqst, hst]
  have hk1 : (((Function.update s i q) i).cp_array k).check_do = true := by rw [e, hqk]
  have ho1 : ∀ j, j ≠ k → (((Function.update s i q) i).cp_array j).check_do = false := by
    intro j hj; rw [e]; exact hqo j hj (hidle j)
  have htc1 : (((Function.update s i q) i).cp_array k).timer_count = ((t + 1 : Nat) : Int) := by
    rw [e, hqtc, ht]
  have hlt : t + 1 ≤ 2147483647 := by omega
  rw [htn]
  refine ⟨?_, ?_, ?_⟩
  · intro n hn
    obtain ⟨h1, _, _, _, h5⟩ :=
      count_down_ticks_before result _ i k (t + 1) hst1 hk1 ho1 htc1 hlt n hn
    exact ⟨h1, h5⟩
  · exact (count_down_ticks_at result _ i k t hst1 hk1 ho1 htc1 hlt (hres t k)).1
  · have h := (count_down_ticks_at result _ i k t hst1 hk1 ho1 htc1 hlt (hres t k)).2.2.2.2
    rw [e, hqpid] at h
    exact h

/-- C3 at the instance of the specification: roles `[start, none, none, end]`,
`deadline[0] = 100`, the line `cp: 0`, 100 ticks. -/
theorem deadline_breach_witness :
    ∃ s1, ingest 1 (cp_line 0) scenario_array = some s1 ∧
      (∀ n, n < ((scenario_array 1).deadline 0).toNat →
        ((count_down_ticks kill_ok n s1).1 1).p_state = p_state_starting ∧
        ∀ pid, ((1 : Fin RTI_federate_nodes), pid) ∉ (count_down_ticks kill_ok n s1).2) ∧
      ((count_down_ticks kill_ok ((scenario_array 1).deadline 0).toNat s1).1 1).p_state =
        p_state_terminated ∧
      ((1 : Fin RTI_federate_nodes), (scenario_array 1).pid) ∈
        (count_down_ticks kill_ok ((scenario_array 1).deadline 0).toNat s1).2 :=
  deadline_breach kill_ok scenario_array 1 0 (by decide) (by decide) (by decide) (by decide)
    (by decide) (by decide) (by intro t j; simp [kill_ok])

/-- C5, refuted as stated, on two runs.  (1) From the configuration written by
`p_info_write`, the lines `cp: 0` and then `cp: 2` of peer 1 (no launch, tick or
restart is needed) lead to an array in which slots 0 and 2 of peer 1 both have
`check_do = true`.  (2) After the launch of the peers and the lines `cp: 0`,
`cp: 1` of peer 1, 100 iterations of `count_down` kill peer 1 while its slot 1
counts; a pass of `restartProgram` launches it again, and the first line `cp: 0`
of the new process leaves slots 0 and 1 of peer 1 both with `check_do = true`. -/
theorem at_most_one_active_counterexample :
    (Reachable any_cp_record no_launch two_active_array ∧
      ((two_active_array 1).cp_array 0).check_do = true ∧
      ((two_active_array 1).cp_array 2).check_do = true ∧
      ¬ at_most_one_active (two_active_array 1)) ∧
    (∃ s1 s2, restartProgram launch_all (count_down_ticks kill_ok 100 counting_array).1 = some s1 ∧
      ingest 1 (cp_line 0) s1 = some s2 ∧
      Reachable any_cp_record any_launch s2 ∧
      ((count_down_ticks kill_ok 100 counting_array).1 1).p_state = p_state_terminated ∧
      (s1 1).p_state = p_state_starting ∧
      ((s2 1).cp_array 0).check_do = true ∧
      ((s2 1).cp_array 1).check_do = true ∧
      ¬ at_most_one_active (s2 1)) := by
  constructor
  · have h1 : ingest 1 (cp_line 0) p_info_write = some configured_cp0_array := rfl
    have h2 : ingest 1 (cp_line 2) configured_cp0_array = some two_active_array := rfl
    have hr : Reachable any_cp_record no_launch two_active_array :=
      Reachable.record configured_cp0_array two_active_array 1 (cp_line 2)
        (Reachable.record p_info_write configured_cp0_array 1 (cp_line 0) Reachable.init
          ⟨0, rfl⟩ h1)
        ⟨2, rfl⟩ h2
    have ha : ((two_active_array 1).cp_array 0).check_do = true := by decide
    have hb : ((two_active_array 1).cp_array 2).check_do = true := by decide
    exact ⟨hr, ha, hb, fun h => absurd (h 0 2 ha hb) (by decide)⟩
  · have hrc : Reachable any_cp_record any_launch counting_array :=
      Reachable.mono in_order_record_any (fun _ h => h) (reachable_counting (fun _ => trivial))
    have hrt := Reachable.ticks kill_ok hrc 100
    obtain ⟨ht1, _, ht3, _, _⟩ :=
      count_down_ticks_at kill_ok counting_array 1 1 99 (by decide) (by decide) (by decide)
        (by decide) (by decide) (by simp [kill_ok])
    obtain ⟨s1, hs1⟩ := restartProgram_fold_total launch_all _ (List.nodup_finRange _)
      (count_down_ticks kill_ok 100 counting_array).1 (fun i _ _ _ => rfl)
    have hrec := restartProgram_spec launch_all _ s1 hs1 1
    have hcp : (s1 1).cp_array = ((count_down_ticks kill_ok 100 counting_array).1 1).cp_array :=
      restart_record_cp_array _ _ _ hrec
    have hst1 : (s1 1).p_state = p_state_starting := by
      unfold restart_record at hrec
      rw [if_pos ht1, if_neg (by decide)] at hrec
      exact (launch_success_spec _ _ _ hrec).1
    have hfl := count_down_ticks_flags kill_ok counting_array 1 0 100
    have hstart : ((s1 1).cp_array 0).start_cp = true := by
      rw [hcp, hfl.1]; decide
    have hnoend : ((s1 1).cp_array 0).end_cp = false := by
      rw [hcp, hfl.2]; decide
    have hline := watch_cp_write_line_start_eq (s1 1) 0 hstart hnoend
    have hin : ingest 1 (cp_line 0) s1 = some (Function.update s1 1
        { s1 1 with cp_num := [Char.ofNat (48 + (0 : Fin max_cp_num).val)],
                    cp_array := arm_slot (s1 1).cp_array (s1 1).deadline 0 }) := by
      unfold ingest
      rw [hline]
      rfl
    have ha : (((Function.update s1 1
        { s1 1 with cp_num := [Char.ofNat (48 + (0 : Fin max_cp_num).val)],
                    cp_array := arm_slot (s1 1).cp_array (s1 1).deadline 0 }) 1).cp_array
        0).check_do = true := by
      simp [arm_slot_same]
    have hb : (((Function.update s1 1
        { s1 1 with cp_num := [Char.ofNat (48 + (0 : Fin max_cp_num).val)],
                    cp_array := arm_slot (s1 1).cp_array (s1 1).deadline 0 }) 1).cp_array
        1).check_do = true := by
      simp only [Function.update_same]
      rw [arm_slot_other _ _ _ _ (by decide), hcp, ht3]
      decide
    refine ⟨s1, _, hs1, hin, ?_, ht1, hst1, ha, hb, fun h => absurd (h 0 1 ha hb) (by decide)⟩
    exact Reachable.record s1 _ 1 (cp_line 0)
      (Reachable.restart _ s1 launch_all hrt (fun _ => trivial) hs1) ⟨0, rfl⟩ hin

/-- C5, amended: in every array reachable from the configuration written by
`p_info_write` by launches, iterations of `count_down`, passes of
`restartProgram` and CP records none of which arms a second slot (the line
`cp: k` of a slot without `end_cp` is ingested only when every counting slot of
the peer is slot `k` or, slot `k` having no `start_cp`, slot `k - 1`), every
peer has at most one slot with `check_do = true`; and a CP record that is
ingested against this proviso leaves two slots of the peer counting. -/
theorem at_most_one_active_in_turn (L : launch_io → Prop) (s : p_info_array)
    (h : Reachable record_in_turn L s) (i : Fin RTI_federate_nodes) :
    at_most_one_active (s i) ∧
    ∀ k q, ¬ record_in_turn (s i) (cp_line k) →
      watch_cp_write_line (cp_line k) (s i) = some q → ¬ at_most_one_active q := by
  constructor
  · induction h generalizing i with
    | init =>
      intro j1 j2 h1 _
      rw [p_info_write_idle] at h1
      exact absurd h1 (by decide)
    | spawn s s1 fd io watch wd wd1 _ _ hex ih =>
      have hcp := execute_record_cp_array _ _ _
        (executeProgram_spec fd io watch s s1 wd wd1 hex i)
      intro j1 j2 h1 h2
      rw [hcp] at h1 h2
      exact ih i j1 j2 h1 h2
    | record s s1 a line _ hrec hin ih =>
      unfold ingest at hin
      obtain ⟨q, hq, rfl⟩ := Option.map_eq_some'.mp hin
      by_cases hia : i = a
      · subst hia
        simp only [Function.update_same]
        exact watch_cp_write_line_in_turn _ _ _ hrec hq (ih i)
      · rw [Function.update_noteq hia]
        exact ih i
    | tick s e result _ ih =>
      intro j1 j2 h1 h2
      rw [count_down_check_do] at h1 h2
      exact ih i j1 j2 h1 h2
    | restart s s1 io _ _ hre ih =>
      have hcp := restart_record_cp_array _ _ _ (restartProgram_spec io s s1 hre i)
      intro j1 j2 h1 h2
      rw [hcp] at h1 h2
      exact ih i j1 j2 h1 h2
  · intro k q hrec hq hone
    obtain ⟨j, hjk, hj, hk⟩ := watch_cp_write_line_out_of_turn (s i) q k hrec hq
    exact hjk (hone j k hj hk)

/-- C5, amended, at the array reached by the launch of the peers and the lines
`cp: 0`, `cp: 1` of peer 1. -/
theorem at_most_one_active_in_turn_witness :
    Reachable record_in_turn any_launch counting_array ∧
    at_most_one_active (counting_array 1) ∧
    ∀ k q, ¬ record_in_turn (counting_array 1) (cp_line k) →
      watch_cp_write_line (cp_line k) (counting_array 1) = some q → ¬ at_most_one_active q :=
  ⟨Reachable.mono in_order_record_in_turn (fun _ h => h) (reachable_counting (fun _ => trivial)),
    at_most_one_active_in_turn any_launch counting_array
      (Reachable.mono in_order_record_in_turn (fun _ h => h)
        (reachable_counting (fun _ => trivial))) 1⟩

/-- C6, refuted as stated: the launch of the peers, the lines `cp: 0` and
`cp: 1` of peer 1 and 100 iterations of `count_down` with kill commands that
succeed lead to an array in which peer 1 is terminated after the kill command
was issued for its pid 4241, while its pid is still 4241 and slot 1 still has
`check_do = true`. -/
theorem kill_clears_counterexample :
    Reachable any_line any_launch (count_down_ticks kill_ok 100 counting_array).1 ∧
    ((count_down_ticks kill_ok 100 counting_array).1 1).p_state = p_state_terminated ∧
    ((count_down_ticks kill_ok 100 counting_array).1 1).pid = 4241 ∧
    (((count_down_ticks kill_ok 100 counting_array).1 1).cp_array 1).check_do = true ∧
    ((1 : Fin RTI_federate_nodes), (4241 : Int)) ∈ (count_down_ticks kill_ok 100 counting_array).2 := by
  have hr : Reachable any_line any_launch counting_array :=
    Reachable.mono (fun _ _ _ => trivial) (fun _ h => h) (reachable_counting (fun _ => trivial))
  obtain ⟨h1, h2, h3, _, h5⟩ :=
    count_down_ticks_at kill_ok counting_array 1 1 99 (by decide) (by decide) (by decide)
      (by decide) (by decide) (by simp [kill_ok])
  refine ⟨Reachable.ticks kill_ok hr 100, h1, ?_, ?_, ?_⟩
  · rw [h2]; decide
  · rw [h3]; decide
  · exact h5

/-- C6, amended: an iteration of `count_down` that takes a starting peer to the
terminated state has issued the kill command for the pid of the peer at a slot
where the command did not fail; it leaves the pid of the peer and the
`check_do` flag of every slot as they were, the slot that fired keeping
`check_do = true` with `timer_count = 0`. -/
theorem kill_keeps_pid_and_flags (expirations : Nat)
    (result : Fin RTI_federate_nodes → Fin max_cp_num → Int)
    (s : p_info_array) (i : Fin RTI_federate_nodes)
    (hst : (s i).p_state = p_state_starting)
    (hterm : ((count_down expirations result s).1 i).p_state = p_state_terminated) :
    ((count_down expirations result s).1 i).pid = (s i).pid ∧
    (∀ j, (((count_down expirations result s).1 i).cp_array j).check_do =
      ((s i).cp_array j).check_do) ∧
    (∃ j, (((count_down expirations result s).1 i).cp_array j).check_do = true ∧
      (((count_down expirations result s).1 i).cp_array j).timer_count = 0 ∧
      result i j ≠ -1) ∧
    (i, (s i).pid) ∈ (count_down expirations result s).2 := by
  refine ⟨count_down_pid _ _ _ _, fun j => count_down_check_do _ _ _ _ _, ?_, ?_⟩
  · unfold count_down at hterm ⊢
    rw [count_down_pass_peer, count_down_peer_eq] at hterm ⊢
    obtain ⟨j, _, h1, h2, h3, _⟩ :=
      count_down_slots_terminated (result i) _ (s i, []) hst hterm
    exact ⟨j, h1, h2, h3⟩
  · unfold count_down at hterm ⊢
    rw [count_down_pass_log]
    rw [count_down_pass_peer, count_down_peer_eq] at hterm
    obtain ⟨j, _, _, _, _, h4⟩ :=
      count_down_slots_terminated (result i) _ (s i, []) hst hterm
    exact h4

/-- C6, amended, at the last tick before the deadline of slot 1 of peer 1. -/
theorem kill_keeps_pid_and_flags_witness :
    ((count_down 1 (kill_ok 0) last_tick_array).1 1).pid = (last_tick_array 1).pid ∧
    (∀ j, (((count_down 1 (kill_ok 0) last_tick_array).1 1).cp_array j).check_do =
      ((last_tick_array 1).cp_array j).check_do) ∧
    (∃ j, (((count_down 1 (kill_ok 0) last_tick_array).1 1).cp_array j).check_do = true ∧
      (((count_down 1 (kill_ok 0) last_tick_array).1 1).cp_array j).timer_count = 0 ∧
      kill_ok 0 1 j ≠ -1) ∧
    ((1 : Fin RTI_federate_nodes), (last_tick_array 1).pid) ∈
      (count_down 1 (kill_ok 0) last_tick_array).2 :=
  kill_keeps_pid_and_flags 1 (kill_ok 0) last_tick_array 1 (by decide) (by decide)

/-- C7, refuted as stated: `executeProgram` on the configuration written by
`p_info_write`, in an environment where every command succeeds and every file
opens but no pid can be parsed, returns an array in which peer 0 is starting
while its pid is `0`; the same array is returned when every file holds the
text `0`, which `fscanf` stores as the pid. -/
theorem starting_pid_counterexample :
    executeProgram 3 launch_no_pid watch_all p_info_write (fun _ => 0) =
      some (unread_pid_array, watch_all) ∧
    executeProgram 3 launch_zero_pid watch_all p_info_write (fun _ => 0) =
      some (unread_pid_array, watch_all) ∧
    Reachable any_line any_launch unread_pid_array ∧
    (unread_pid_array 0).p_state = p_state_starting ∧
    (unread_pid_array 0).pid = 0 :=
  ⟨rfl, rfl,
    Reachable.spawn p_info_write unread_pid_array 3 launch_no_pid watch_all (fun _ => 0)
      watch_all Reachable.init (fun _ => trivial) rfl,
    by decide, by decide⟩

/-- C7, amended: in every array reachable from the configuration written by
`p_info_write` through `executeProgram`, ingest of lines, iterations of
`count_down` and passes of `restartProgram`, where no successful launch leaves
its peer with pid `0` (the pid parsed from the message file is not `0`, and the
parse fails only for a peer whose pid is already other than `0`), every
starting peer has a pid other than `0`; and a successful launch against this
proviso leaves its peer starting with pid `0`. -/
theorem starting_has_pid (R : process_info → List Char → Prop) (s : p_info_array)
    (h : ReachableWhen R pid_kept s) (i : Fin RTI_federate_nodes) :
    ((s i).p_state = p_state_starting → (s i).pid ≠ 0) ∧
    ∀ io q, io.result ≠ -1 → ¬ pid_kept (s i) io → launch_success io (s i) = some q →
      q.p_state = p_state_starting ∧ q.pid = 0 := by
  constructor
  · induction h generalizing i with
    | init =>
      intro hst
      have : (p_info_write i).p_state ≠ p_state_starting := by revert i; decide
      exact absurd hst this
    | spawn s s1 fd io watch wd wd1 _ hio hex ih =>
      intro hst
      have hrec := executeProgram_spec fd io watch s s1 wd wd1 hex i
      unfold execute_record at hrec
      by_cases hr : (io i).result = -1
      · simp only [hr, if_true, Option.some.injEq] at hrec
        rw [← hrec] at hst ⊢
        exact ih i hst
      · simp only [hr, if_false] at hrec
        rw [launch_success_pid_eq _ _ _ hrec]
        exact hio i hr
    | record s s1 a line _ _ hin ih =>
      intro hst
      unfold ingest at hin
      obtain ⟨q, hq, rfl⟩ := Option.map_eq_some'.mp hin
      by_cases hia : i = a
      · subst hia
        simp only [Function.update_same] at hst ⊢
        obtain ⟨h1, h2⟩ := watch_cp_write_line_keeps _ _ _ hq
        rw [h1]
        exact ih i (h2 ▸ hst)
      · rw [Function.update_noteq hia] at hst ⊢
        exact ih i hst
    | tick s e result _ ih =>
      intro hst
      rw [count_down_pid]
      rcases count_down_state e result s i with h1 | h1
      · exact ih i (h1 ▸ hst)
      · rw [h1] at hst
        exact absurd hst (by decide)
    | restart s s1 io _ hio hre ih =>
      intro hst
      have hrec := restartProgram_spec io s s1 hre i
      unfold restart_record at hrec
      by_cases hterm : (s i).p_state = p_state_terminated
      · by_cases hr : (io i).result = -1
        · simp only [hterm, hr, if_true, Option.some.injEq] at hrec
          rw [← hrec] at hst ⊢
          exact ih i hst
        · simp only [hterm, hr, if_true, if_false] at hrec
          rw [launch_success_pid_eq _ _ _ hrec]
          exact hio i hterm hr
      · simp only [hterm, if_false, Option.some.injEq] at hrec
        rw [← hrec] at hst ⊢
        exact ih i hst
  · intro io q hr hnot hq
    refine ⟨(launch_success_spec _ _ _ hq).1, ?_⟩
    rw [launch_success_pid_eq _ _ _ hq]
    by_contra hne
    exact hnot (fun _ => hne)

/-- C7, amended, at peer 1 of the array reached by the launch of the peers, the
kill of peer 1 and a pass of `restartProgram` in which no pid can be parsed:
the peer is starting again and keeps the pid 4241 it had. -/
theorem starting_has_pid_witness :
    ReachableWhen any_line pid_kept restarted_array ∧
    (restarted_array 1).p_state = p_state_starting ∧
    ((restarted_array 1).p_state = p_state_starting → (restarted_array 1).pid ≠ 0) ∧
    ∀ io q, io.result ≠ -1 → ¬ pid_kept (restarted_array 1) io →
      launch_success io (restarted_array 1) = some q →
      q.p_state = p_state_starting ∧ q.pid = 0 :=
  ⟨reachable_restarted, restarted_starting,
    starting_has_pid any_line restarted_array reachable_restarted 1⟩

/-! ## Claims on malformed lines, missed ticks and failed restarts -/

/-- C8, evaluated at two failing inputs.  `sscanf` stores nothing for the line
`xyz`, and `time_count_update` is called all the same with the token left in
`cp_num`.  (1) Peer 1 of the running array has read no token and no slot of it
counts; the line `xyz` arms slot 0 with `timer_count = 1010`.  (2) One tick
after the lines `cp: 0`, `cp: 1` of peer 1 its slot 1 has `timer_count = 99`; the
line `xyz` sets it back to `100`. -/
theorem malformed_line_rearms :
    sscanf_cp xyz_line = none ∧
    (∀ j, ((running_array 1).cp_array j).check_do = false) ∧
    (ingest 1 xyz_line running_array).map
      (fun s => (((s 1).cp_array 0).check_do, ((s 1).cp_array 0).timer_count)) =
      some (true, 1010) ∧
    (((count_down 1 (kill_ok 0) counting_array).1 1).cp_array 1).timer_count = 99 ∧
    (ingest 1 xyz_line (count_down 1 (kill_ok 0) counting_array).1).map
      (fun s => ((s 1).cp_array 1).timer_count) = some 100 := by
  refine ⟨by decide, by decide, by decide, by decide, by decide⟩

/-- C9, refuted as stated: on the counting array slot 1 of the starting peer 1
counts with `timer_count = 100`; an iteration of `count_down` whose timer read
reports 100 expirations leaves `timer_count = 99` and issues no kill command. -/
theorem missed_ticks_counterexample :
    (counting_array 1).p_state = p_state_starting ∧
    ((counting_array 1).cp_array 1).check_do = true ∧
    ((counting_array 1).cp_array 1).timer_count = 100 ∧
    (((count_down 100 (kill_ok 0) counting_array).1 1).cp_array 1).timer_count = 99 ∧
    (count_down 100 (kill_ok 0) counting_array).2 = [] := by
  decide

/-- C9, amended: whatever number of expirations the timer read reports, the
iteration of `count_down` is the one made for a single expiration; a counting
slot of a starting peer loses exactly one unit (or is left as it was, when the
peer was terminated earlier in the same pass), and a kill command is issued for
the peer only if one of its counting slots stood at one unit. -/
theorem count_down_ignores_expirations (expirations : Nat)
    (result : Fin RTI_federate_nodes → Fin max_cp_num → Int)
    (s : p_info_array) (i : Fin RTI_federate_nodes) (j : Fin max_cp_num)
    (hst : (s i).p_state = p_state_starting)
    (hact : ((s i).cp_array j).check_do = true) :
    count_down expirations result s = count_down 1 result s ∧
    ((((count_down expirations result s).1 i).cp_array j).timer_count =
        int_wrap (((s i).cp_array j).timer_count - 1) ∨
      ((((count_down expirations result s).1 i).cp_array j).timer_count =
          ((s i).cp_array j).timer_count ∧
        ((count_down expirations result s).1 i).p_state = p_state_terminated)) ∧
    (∀ pid, (i, pid) ∈ (count_down expirations result s).2 →
      ∃ j1, ((s i).cp_array j1).check_do = true ∧
        int_wrap (((s i).cp_array j1).timer_count - 1) = 0) := by
  refine ⟨rfl, ?_, ?_⟩
  · unfold count_down
    rw [count_down_pass_peer, count_down_peer_eq]
    exact count_down_slots_timer (result i) _ (List.nodup_finRange _) (s i, []) hst j
      (List.mem_finRange j) hact
  · intro pid hmem
    unfold count_down at hmem
    rw [count_down_pass_log, count_down_peer_eq] at hmem
    by_contra hno
    have hq : ∀ j1, j1 ∈ List.finRange max_cp_num → ((s i).cp_array j1).check_do = true →
        int_wrap (((s i).cp_array j1).timer_count - 1) ≠ 0 :=
      fun j1 _ hc hz => hno ⟨j1, hc, hz⟩
    have := (count_down_slots_quiet (result i) _ (List.nodup_finRange _) (s i, []) hq).1
    rw [this] at hmem
    exact absurd hmem (List.not_mem_nil _)

/-- C9, amended, at slot 1 of peer 1 of the counting array and 100 expirations. -/
theorem count_down_ignores_expirations_witness :
    count_down 100 (kill_ok 0) counting_array = count_down 1 (kill_ok 0) counting_array ∧
    ((((count_down 100 (kill_ok 0) counting_array).1 1).cp_array 1).timer_count =
        int_wrap (((counting_array 1).cp_array 1).timer_count - 1) ∨
      ((((count_down 100 (kill_ok 0) counting_array).1 1).cp_array 1).timer_count =
          ((counting_array 1).cp_array 1).timer_count ∧
        ((count_down 100 (kill_ok 0) counting_array).1 1).p_state = p_state_terminated)) ∧
    (∀ pid, ((1 : Fin RTI_federate_nodes), pid) ∈ (count_down 100 (kill_ok 0) counting_array).2 →
      ∃ j1, ((counting_array 1).cp_array j1).check_do = true ∧
        int_wrap (((counting_array 1).cp_array j1).timer_count - 1) = 0) :=
  count_down_ignores_expirations 100 (kill_ok 0) counting_array 1 1 (by decide) (by decide)

/-- C10, refuted as stated: peer 1 of the killed array is terminated; a pass of
`restartProgram` in which the launch command succeeds and the message file
opens but no pid can be parsed returns with peer 1 starting, its pid still the
4241 of the killed process. -/
theorem restart_failure_counterexample :
    (killed_array 1).p_state = p_state_terminated ∧
    (restartProgram launch_no_pid killed_array).map
      (fun s => ((s 1).p_state, (s 1).pid)) = some (p_state_starting, 4241) := by
  decide

/-- C10, amended: for a terminated peer `i`, a pass of `restartProgram` (in which
every launch that succeeds for a terminated peer finds its message file)
returns; if the launch command of peer `i` fails, the record of the peer is
unchanged, so the peer is still terminated and the next pass retries it; if the
command succeeds, the peer is starting whether or not a pid is read, with the
pid read or, none being read, the pid it had. -/
theorem restart_launch_outcome (io : Fin RTI_federate_nodes → launch_io)
    (s : p_info_array) (i : Fin RTI_federate_nodes)
    (hterm : (s i).p_state = p_state_terminated)
    (hopen : ∀ a, (s a).p_state = p_state_terminated → (io a).result ≠ -1 →
      (io a).fopen_ok = true) :
    ∃ s1, restartProgram io s = some s1 ∧
      ((io i).result = -1 →
        (s1 i).p_state = p_state_terminated ∧ (s1 i).pid = (s i).pid ∧
          (s1 i).cp_array = (s i).cp_array) ∧
      ((io i).result ≠ -1 →
        (s1 i).p_state = p_state_starting ∧ (s1 i).pid = (io i).scanned.getD (s i).pid ∧
          (s1 i).cp_array = (s i).cp_array) := by
  obtain ⟨s1, h1⟩ := restartProgram_fold_total io _ (List.nodup_finRange _) s
    (fun a _ => hopen a)
  have hrec := restartProgram_spec io s s1 h1 i
  refine ⟨s1, h1, ?_, ?_⟩
  · intro hr
    unfold restart_record at hrec
    simp only [hterm, hr, if_true, Option.some.injEq] at hrec
    rw [← hrec]
    exact ⟨hterm, rfl, rfl⟩
  · intro hr
    unfold restart_record at hrec
    simp only [hterm, hr, if_true, if_false] at hrec
    obtain ⟨h2, h3, _, h4⟩ := launch_success_spec _ _ _ hrec
    refine ⟨h2, ?_, h3⟩
    rcases h4 with ⟨h5, h6⟩ | h5
    · rw [h5, h6]; rfl
    · rw [h5]; rfl

/-- C10, amended, at peer 1 of the killed array when every launch command fails. -/
theorem restart_launch_outcome_witness :
    ∃ s1, restartProgram launch_fails killed_array = some s1 ∧
      ((launch_fails 1).result = -1 →
        (s1 1).p_state = p_state_terminated ∧ (s1 1).pid = (killed_array 1).pid ∧
          (s1 1).cp_array = (killed_array 1).cp_array) ∧
      ((launch_fails 1).result ≠ -1 →
        (s1 1).p_state = p_state_starting ∧
          (s1 1).pid = (launch_fails 1).scanned.getD (killed_array 1).pid ∧
          (s1 1).cp_array = (killed_array 1).cp_array) :=
  restart_launch_outcome launch_fails killed_array 1 (by decide) (by decide)

/-! ## Claims on a failed kill and on index 0 -/

/-- C11, refuted as stated: one tick before the deadline of slot 1 of the
starting peer 1 (`timer_count = 1`), an iteration of `count_down` whose kill
commands fail issues the kill command for pid 4241 and leaves the peer starting
with `timer_count = 0`; the next iteration, whose kill commands would succeed,
issues no kill command at all and leaves the peer starting with
`timer_count = -1`. -/
theorem kill_retry_counterexample :
    (last_tick_array 1).p_state = p_state_starting ∧
    ((last_tick_array 1).cp_array 1).check_do = true ∧
    ((last_tick_array 1).cp_array 1).timer_count = 1 ∧
    (count_down 1 kill_fails last_tick_array).2 = [(1, 4241)] ∧
    ((count_down 1 kill_fails last_tick_array).1 1).p_state = p_state_starting ∧
    (((count_down 1 kill_fails last_tick_array).1 1).cp_array 1).timer_count = 0 ∧
    (count_down 1 (kill_ok 0) (count_down 1 kill_fails last_tick_array).1).2 = [] ∧
    ((count_down 1 (kill_ok 0) (count_down 1 kill_fails last_tick_array).1).1 1).p_state =
      p_state_starting ∧
    (((count_down 1 (kill_ok 0) (count_down 1 kill_fails last_tick_array).1).1 1).cp_array
      1).timer_count = -1 := by
  refine ⟨by decide, by decide, by decide, by decide, by decide, by decide, by decide,
    by decide, by decide⟩

/-- C11, amended: when an iteration of `count_down` brings a counting slot `k`
of a starting peer from one unit to zero and the kill commands for that peer
fail, the kill command has been issued for the pid of the peer, the peer stays
starting and slot `k` keeps `check_do = true` with `timer_count = 0`.  The next
iteration does not issue the kill command on account of slot `k`: a kill
command for the peer then needs another counting slot that stands at one unit;
with no other slot counting, no kill command is issued for the peer, it stays
starting, and slot `k` goes to `timer_count = -1`. -/
theorem kill_failure_not_retried (e1 e2 : Nat)
    (result1 result2 : Fin RTI_federate_nodes → Fin max_cp_num → Int)
    (s : p_info_array) (i : Fin RTI_federate_nodes) (k : Fin max_cp_num)
    (hst : (s i).p_state = p_state_starting)
    (hact : ((s i).cp_array k).check_do = true)
    (hone : ((s i).cp_array k).timer_count = 1)
    (hfail : ∀ j, result1 i j = -1) :
    (i, (s i).pid) ∈ (count_down e1 result1 s).2 ∧
    ((count_down e1 result1 s).1 i).p_state = p_state_starting ∧
    (((count_down e1 result1 s).1 i).cp_array k).check_do = true ∧
    (((count_down e1 result1 s).1 i).cp_array k).timer_count = 0 ∧
    (∀ pid, (i, pid) ∈ (count_down e2 result2 (count_down e1 result1 s).1).2 →
      ∃ j, j ≠ k ∧ (((count_down e1 result1 s).1 i).cp_array j).check_do = true ∧
        int_wrap ((((count_down e1 result1 s).1 i).cp_array j).timer_count - 1) = 0) ∧
    ((∀ j, j ≠ k → ((s i).cp_array j).check_do = false) →
      (∀ pid, (i, pid) ∉ (count_down e2 result2 (count_down e1 result1 s).1).2) ∧
      ((count_down e2 result2 (count_down e1 result1 s).1).1 i).p_state = p_state_starting ∧
      (((count_down e2 result2 (count_down e1 result1 s).1).1 i).cp_array k).timer_count
        = -1) := by
  have hz : int_wrap (((s i).cp_array k).timer_count - 1) = 0 := by rw [hone]; decide
  have h1st : ((count_down e1 result1 s).1 i).p_state = p_state_starting := by
    unfold count_down
    rw [count_down_pass_peer, count_down_peer_eq,
      count_down_slots_fail_state (result1 i) hfail]
    exact hst
  have h1c : (((count_down e1 result1 s).1 i).cp_array k).check_do = true := by
    rw [count_down_check_do]; exact hact
  have h1t : (((count_down e1 result1 s).1 i).cp_array k).timer_count = 0 := by
    have h := count_down_slots_timer (result1 i) _ (List.nodup_finRange _) (s i, []) hst k
      (List.mem_finRange k) hact
    have hst2 := h1st
    unfold count_down at hst2 ⊢
    rw [count_down_pass_peer, count_down_peer_eq] at hst2 ⊢
    rcases h with h | ⟨_, h⟩
    · rw [h]; exact hz
    · rw [hst2] at h; exact absurd h (by decide)
  have hquiet : ∀ pid, (i, pid) ∈ (count_down e2 result2 (count_down e1 result1 s).1).2 →
      ∃ j, (((count_down e1 result1 s).1 i).cp_array j).check_do = true ∧
        int_wrap ((((count_down e1 result1 s).1 i).cp_array j).timer_count - 1) = 0 := by
    intro pid hmem
    by_contra hno
    have hq : ∀ j, j ∈ List.finRange max_cp_num →
        (((count_down e1 result1 s).1 i).cp_array j).check_do = true →
        int_wrap ((((count_down e1 result1 s).1 i).cp_array j).timer_count - 1) ≠ 0 :=
      fun j _ hc hzz => hno ⟨j, hc, hzz⟩
    have hlog := (count_down_slots_quiet (result2 i) _ (List.nodup_finRange _)
      ((count_down e1 result1 s).1 i, []) hq).1
    rw [show (count_down e2 result2 (count_down e1 result1 s).1).2 =
      (count_down_pass result2 (count_down e1 result1 s).1).2 from rfl,
      count_down_pass_log, count_down_peer_eq, hlog] at hmem
    exact absurd hmem (List.not_mem_nil _)
  refine ⟨?_, h1st, h1c, h1t, ?_, ?_⟩
  · unfold count_down
    rw [count_down_pass_log, count_down_peer_eq]
    exact count_down_slots_fail_log (result1 i) hfail k _ (List.nodup_finRange _) (s i, []) hst
      (List.mem_finRange k) hact hz
  · intro pid hmem
    obtain ⟨j, hc, hzz⟩ := hquiet pid hmem
    refine ⟨j, ?_, hc, hzz⟩
    intro hjk
    rw [hjk, h1t] at hzz
    exact absurd hzz (by decide)
  · intro hothers
    have ho1 : ∀ j, j ≠ k → (((count_down e1 result1 s).1 i).cp_array j).check_do = false := by
      intro j hj; rw [count_down_check_do]; exact hothers j hj
    have hne : int_wrap ((((count_down e1 result1 s).1 i).cp_array k).timer_count - 1) ≠ 0 := by
      rw [h1t]; decide
    have hpeer := count_down_peer_single_no_fire (result2 i) _ k h1st h1c ho1 hne
    refine ⟨?_, ?_, ?_⟩
    · intro pid hmem
      rw [show (count_down e2 result2 (count_down e1 result1 s).1).2 =
        (count_down_pass result2 (count_down e1 result1 s).1).2 from rfl,
        count_down_pass_log, hpeer] at hmem
      exact absurd hmem (List.not_mem_nil _)
    · rw [show (count_down e2 result2 (count_down e1 result1 s).1).1 =
        (count_down_pass result2 (count_down e1 result1 s).1).1 from rfl,
        count_down_pass_peer, hpeer]
      exact h1st
    · rw [show (count_down e2 result2 (count_down e1 result1 s).1).1 =
        (count_down_pass result2 (count_down e1 result1 s).1).1 from rfl,
        count_down_pass_peer, hpeer, dec_slot_timer, h1t]
      decide

/-- C11, amended, one tick before the deadline of slot 1 of peer 1, the kill
commands failing in the first iteration and succeeding in the second. -/
theorem kill_failure_not_retried_witness :
    ((1 : Fin RTI_federate_nodes), (last_tick_array 1).pid) ∈
      (count_down 1 kill_fails last_tick_array).2 ∧
    ((count_down 1 kill_fails last_tick_array).1 1).p_state = p_state_starting ∧
    (((count_down 1 kill_fails last_tick_array).1 1).cp_array 1).check_do = true ∧
    (((count_down 1 kill_fails last_tick_array).1 1).cp_array 1).timer_count = 0 ∧
    (∀ pid, ((1 : Fin RTI_federate_nodes), pid) ∈
        (count_down 1 (kill_ok 0) (count_down 1 kill_fails last_tick_array).1).2 →
      ∃ j, j ≠ 1 ∧ (((count_down 1 kill_fails last_tick_array).1 1).cp_array j).check_do = true ∧
        int_wrap ((((count_down 1 kill_fails last_tick_array).1 1).cp_array j).timer_count - 1)
          = 0) ∧
    ((∀ j, j ≠ 1 → ((last_tick_array 1).cp_array j).check_do = false) →
      (∀ pid, ((1 : Fin RTI_federate_nodes), pid) ∉
        (count_down 1 (kill_ok 0) (count_down 1 kill_fails last_tick_array).1).2) ∧
      ((count_down 1 (kill_ok 0) (count_down 1 kill_fails last_tick_array).1).1 1).p_state =
        p_state_starting ∧
      (((count_down 1 (kill_ok 0) (count_down 1 kill_fails last_tick_array).1).1 1).cp_array
        1).timer_count = -1) :=
  kill_failure_not_retried 1 1 kill_fails (kill_ok 0) last_tick_array 1 1 (by decide) (by decide)
    (by decide) (by intro j; rfl)

/-- C12, evaluated at the failing input.  Slot 0 of peer 0 of the running array
has neither `start_cp` nor `end_cp`, as configured by `p_info_write`.  For the
line `cp: 0` the token is `0`, and `time_count_update` takes its last branch,
whose statement `cp_array[cp_num_value - 1]->check_do = false` indexes
`cp_array` at `-1`: the call has no defined result.  The same holds for every
peer whose token denotes index 0 and whose slot 0 has neither flag. -/
theorem index_zero_out_of_bounds :
    ((running_array 0).cp_array 0).start_cp = false ∧
    ((running_array 0).cp_array 0).end_cp = false ∧
    sscanf_cp (cp_line 0) = some ['0'] ∧
    atoi ['0'] = 0 ∧
    (time_count_update { running_array 0 with cp_num := ['0'] }).isSome = false ∧
    (ingest 0 (cp_line 0) running_array).isSome = false ∧
    (∀ p : process_info, ¬ (atoi p.cp_num = 0 ∧ (p.cp_array 0).start_cp = false ∧
      (p.cp_array 0).end_cp = false ∧ (time_count_update p).isSome = true)) := by
  refine ⟨by decide, by decide, by decide, by decide, by decide, by decide, ?_⟩
  rintro p ⟨hnum, hs, he, hsome⟩
  have h := time_count_update_eq p 0 (by simpa using hnum)
  rw [h] at hsome
  simp [he, hs] at hsome

/-! ## Claim on timely progress -/

/-- C13 (timely progress): peer `i` is starting with no counting slot; slot 0
has `start_cp`, slots `1 .. n - 1` have neither flag, slot `n` has `end_cp`
(`1 ≤ n < max_cp_num`), and for every `j < n` the budget `deadline[j]` is
positive, within the range of `int`, and larger than the number of ticks of gap
`j`.  Then in the run made of the lines `cp: 0`, ..., `cp: n` of peer `i`, with
the ticks of gap `j` between `cp: j` and `cp: (j + 1)` and arbitrary results of
the kill commands, every prefix returns with the peer starting and without a
kill command issued for it, and the whole run returns with `check_do = false`
on every slot of the peer. -/
theorem timely_progress (s : p_info_array) (i : Fin RTI_federate_nodes) (n : Nat)
    (gaps : List (List (Fin RTI_federate_nodes → Fin max_cp_num → Int)))
    (hst : (s i).p_state = p_state_starting)
    (hidle : ∀ j, ((s i).cp_array j).check_do = false)
    (hn1 : 1 ≤ n) (hn : n < max_cp_num) (hlen : gaps.length = n)
    (hstart : ((s i).cp_array 0).start_cp = true)
    (hmid : ∀ j : Fin max_cp_num, 0 < j.val → j.val < n → ((s i).cp_array j).start_cp = false)
    (hnoend : ∀ j : Fin max_cp_num, j.val < n → ((s i).cp_array j).end_cp = false)
    (hend : ∀ j : Fin max_cp_num, j.val = n → ((s i).cp_array j).end_cp = true)
    (hgap : ∀ j : Fin max_cp_num, j.val < n →
      0 < (s i).deadline j ∧ ((gaps.getD j.val []).length : Int) < (s i).deadline j ∧
        (s i).deadline j ≤ 2147483647) :
    (∀ m, ∃ acc, run_events ((timely_events i 0 gaps).take m) (s, []) = some acc ∧
      (acc.1 i).p_state = p_state_starting ∧ ∀ pid, (i, pid) ∉ acc.2) ∧
    (∃ acc, run_events (timely_events i 0 gaps) (s, []) = some acc ∧
      ∀ j, ((acc.1 i).cp_array j).check_do = false) := by
  have hsched : timely_schedule (s i) 0 gaps := by
    apply timely_schedule_of_slots (s i) gaps 0 (by omega)
    · intro hnil
      rw [hnil] at hlen
      simp at hlen
      omega
    · intro j _ hj
      have hjn : j.val < n := by omega
      refine ⟨hnoend j hjn, ?_, fun h => hmid j h hjn, ?_, (hgap j hjn).2.2⟩
      · intro h0
        have : j = 0 := Fin.ext h0
        rw [this]; exact hstart
      · simpa using (hgap j hjn).2.1
    · intro j hj
      exact hend j (by omega)
  have hinv : timely_inv (s i) i 0 (s, []) := by
    refine ⟨hst, fun j => ⟨rfl, rfl⟩, rfl, ?_, fun pid h => absurd h (List.not_mem_nil _)⟩
    intro j hj
    rw [hidle j] at hj
    exact absurd hj (by decide)
  exact timely_run (s i) i gaps 0 (s, []) hsched hinv

/-- C13 at the instance of the specification: roles `[start, none, none, end]`,
budgets of 100 ticks, the lines `cp: 0` to `cp: 3` with 50 ticks between two
consecutive lines. -/
theorem timely_progress_witness :
    (∀ m, ∃ acc, run_events ((timely_events 1 0 scenario_gaps).take m) (scenario_array, []) =
        some acc ∧
      (acc.1 1).p_state = p_state_starting ∧
      ∀ pid, ((1 : Fin RTI_federate_nodes), pid) ∉ acc.2) ∧
    (∃ acc, run_events (timely_events 1 0 scenario_gaps) (scenario_array, []) = some acc ∧
      ∀ j, ((acc.1 1).cp_array j).check_do = false) :=
  timely_progress scenario_array 1 3 scenario_gaps (by decide) (by decide) (by decide)
    (by decide) (by decide) (by decide) (by decide) (by decide) (by decide) (by decide)

/-! ## Claim on the event loop -/

/-- C14, evaluated at the failing input: the batch of 16 bytes holds the single
event `IN_IGNORED`.  Its mask has no `IN_MODIFY`, so the loop body leaves
`event_point` at `0`: after any number of iterations the array is untouched,
`event_point` is still `0 < 16`, and the loop has not been left, whatever the
array, the watch descriptors and the answers of the environment are. -/
theorem event_loop_stuck (io : Nat → Fin RTI_federate_nodes → file_io)
    (wd : Fin RTI_federate_nodes → Int) (s : p_info_array) (n idx : Nat) :
    watch_cp_write_iterate io wd ignored_buffer 16 n idx (s, 0) = some (s, 0) ∧
    (ignored_buffer 0).mask &&& IN_MODIFY = 0 ∧ (0 : Int) < 16 := by
  refine ⟨?_, by decide, by decide⟩
  induction n generalizing idx with
  | zero => rfl
  | succ n ih =>
    have hev : watch_cp_write_event (io idx) wd ignored_buffer (s, 0) = some (s, 0) := by
      unfold watch_cp_write_event
      have h0 : (ignored_buffer 0).mask &&& IN_MODIFY = 0 := by decide
      simp [h0]
    unfold watch_cp_write_iterate
    simp only [show ((0 : Int) < 16) from by decide, if_true, hev, Option.some_bind]
    exact ih (idx + 1)

end Monitoring
